import Mathlib

set_option autoImplicit false

/-!
Shallow embedding of the CSV import pipeline of the collector repository
(`src/collector/services/importer.py` together with its collaborators in
`src/collector/services/images.py`, `src/collector/models.py` and
`src/collector/db.py`).

Python strings are modelled as Lean `String`s; Python dictionaries (which
preserve insertion order) are modelled as association lists with an
upsert-in-place operation; file bytes are `List Nat` with values reduced
modulo 256.  External collaborators (the filesystem, chardet's encoding
detection, the csv module's dialect sniffing and row reading, the image
directory lookups of images.py, and the database engine's decision to raise
an IntegrityError at flush time) are parameters of the embedding, so that
every theorem quantifies over their behaviour.
-/

namespace Collector

/-! ### Python string primitives used by the importer -/

/-- Whitespace characters removed by Python's str.strip() on ASCII data. -/
def pySpace (c : Char) : Bool :=
  c = ' ' || c = '\t' || c = '\n' || c = '\r' || c = '\x0b' || c = '\x0c'

/-- str.strip() on a character list: drop leading and trailing whitespace. -/
def pyStripChars (l : List Char) : List Char :=
  ((l.dropWhile pySpace).reverse.dropWhile pySpace).reverse

/-- Python's str.strip(). -/
def pyStrip (s : String) : String :=
  ⟨pyStripChars s.data⟩

/-- str.split(sep) for a one-character separator: "a||b" gives ["a","","b"],
"" gives [""]. -/
def splitChar (c : Char) : List Char → List (List Char)
  | [] => [[]]
  | x :: xs =>
    if x = c then [] :: splitChar c xs
    else
      match splitChar c xs with
      | t :: ts => (x :: t) :: ts
      | [] => [[x]]

/-- Break a character list at the first occurrence of `c`, returning the
parts before and after it. -/
def breakAt (c : Char) : List Char → Option (List Char × List Char)
  | [] => none
  | x :: xs =>
    if x = c then some ([], xs)
    else (breakAt c xs).map fun pq => (x :: pq.1, pq.2)

/-- str.split(sep, maxsplit) for a one-character separator. -/
def pySplitMax (c : Char) : Nat → List Char → List (List Char)
  | 0, l => [l]
  | n + 1, l =>
    match breakAt c l with
    | none => [l]
    | some pq => pq.1 :: pySplitMax c n pq.2

/-- str.startswith on character lists (pattern, then the string). -/
def startsList : List Char → List Char → Bool
  | [], _ => true
  | _ :: _, [] => false
  | p :: ps, x :: xs => p = x && startsList ps xs

/-- Python's `<=` on strings: lexicographic comparison of code points. -/
def listLexLe : List Char → List Char → Bool
  | [], _ => true
  | _ :: _, [] => false
  | a :: as, b :: bs =>
    if a.toNat < b.toNat then true
    else if b.toNat < a.toNat then false
    else listLexLe as bs

/-- Python's `<=` on strings. -/
def pyStrLe (a b : String) : Bool :=
  listLexLe a.data b.data

/-! ### Insertion-ordered dictionaries (Python dict semantics) -/

/-- dict assignment d[k] = v: overwrite in place if the key exists
(keeping its original position, as Python dicts do), else append. -/
def dUpsert {β : Type} : List (String × β) → String → β → List (String × β)
  | [], k, v => [(k, v)]
  | (k0, v0) :: rest, k, v =>
    if k0 = k then (k0, v) :: rest else (k0, v0) :: dUpsert rest k v

/-- d.setdefault(k, dflt) followed by an update of the stored value:
apply `f` to the value at `k` (or to `dflt` if `k` is absent, appending). -/
def dModify {β : Type} (dflt : β) (f : β → β) : List (String × β) → String → List (String × β)
  | [], k => [(k, f dflt)]
  | (k0, v0) :: rest, k =>
    if k0 = k then (k0, f v0) :: rest else (k0, v0) :: dModify dflt f rest k

/-- dict.get(k): first (unique) binding of `k`. -/
def dGet {β : Type} (k : String) : List (String × β) → Option β
  | [] => none
  | (k0, v) :: rest => if k0 = k then some v else dGet k rest

/-! ### JSON values, serialization (json.dumps) and parsing (json.loads)

The importer stores list-valued fields as JSON text produced by
json.dumps(..., ensure_ascii=False) and accepts JSON array literals via
json.loads.  Both are modelled here: the serializer follows CPython's
json encoder (default separators, non-ASCII preserved, control characters
escaped with the \b \t \n \f \r shorthands or a lowercase \u00xx escape),
and the parser follows the json module's grammar (strict strings, the
standard literals plus NaN, Infinity and -Infinity, numbers kept as
lexemes). -/

inductive JVal where
  | jnull : JVal
  | jbool : Bool → JVal
  | jnum : String → JVal
  | jstr : String → JVal
  | jarr : List JVal → JVal
  | jobj : List (String × JVal) → JVal

/-- Lowercase hexadecimal digit for a value below 16. -/
def hexDigit (n : Nat) : Char :=
  if n < 10 then Char.ofNat (48 + n) else Char.ofNat (87 + n)

/-- Escaping of a single character inside a JSON string literal, as done by
CPython's json encoder with ensure_ascii=False. -/
def escChar (c : Char) : List Char :=
  if c = '"' then ['\\', '"']
  else if c = '\\' then ['\\', '\\']
  else if c = '\x08' then ['\\', 'b']
  else if c = '\t' then ['\\', 't']
  else if c = '\n' then ['\\', 'n']
  else if c = '\x0c' then ['\\', 'f']
  else if c = '\r' then ['\\', 'r']
  else if c.toNat < 32 then
    ['\\', 'u', '0', '0', hexDigit (c.toNat / 16), hexDigit (c.toNat % 16)]
  else [c]

/-- Body of a serialized JSON string literal (no surrounding quotes). -/
def encBody (l : List Char) : List Char :=
  l.foldr (fun c acc => escChar c ++ acc) []

/-- Serialized JSON string literal. -/
def encStr (s : String) : List Char :=
  '"' :: encBody s.data ++ ['"']

/-- Python's str.join on character lists (the separator placed between
consecutive items), as used by json.dumps between array items and object
members. -/
def joinSep (sep : List Char) : List (List Char) → List Char
  | [] => []
  | [x] => x
  | x :: xs => x ++ sep ++ joinSep sep xs

/-- json.dumps of a list of strings with the default ", " item separator. -/
def dumpsStrListChars (l : List String) : List Char :=
  '[' :: joinSep [',', ' '] (l.map encStr) ++ [']']

/-- json.dumps(list_of_str, ensure_ascii=False). -/
def jsonDumpsList (l : List String) : String :=
  ⟨dumpsStrListChars l⟩

/-- Serialized JSON object whose values are strings, with the default
", " and ": " separators. -/
def encObjChars (o : List (String × String)) : List Char :=
  '{' :: joinSep [',', ' ']
    (o.map fun kv => encStr kv.1 ++ ':' :: ' ' :: encStr kv.2) ++ ['}']

/-- json.dumps of a list of string-valued objects (the attacks payload). -/
def dumpsObjListChars (l : List (List (String × String))) : List Char :=
  '[' :: joinSep [',', ' '] (l.map encObjChars) ++ [']']

/-- Whitespace skipped between JSON tokens. -/
def jsonWs (c : Char) : Bool :=
  c = ' ' || c = '\t' || c = '\n' || c = '\r'

/-- Drop leading JSON whitespace. -/
def skipWs (l : List Char) : List Char :=
  l.dropWhile jsonWs

/-- Value of a hexadecimal digit. -/
def hexVal (c : Char) : Option Nat :=
  if '0' ≤ c ∧ c ≤ '9' then some (c.toNat - 48)
  else if 'a' ≤ c ∧ c ≤ 'f' then some (c.toNat - 87)
  else if 'A' ≤ c ∧ c ≤ 'F' then some (c.toNat - 55)
  else none

/-- Character encoded by a one-letter escape code in a JSON string. -/
def escCode (c : Char) : Option Char :=
  if c = '"' then some '"'
  else if c = '\\' then some '\\'
  else if c = '/' then some '/'
  else if c = 'b' then some '\x08'
  else if c = 'f' then some '\x0c'
  else if c = 'n' then some '\n'
  else if c = 'r' then some '\r'
  else if c = 't' then some '\t'
  else none

/-- Parse the body of a JSON string literal (after the opening quote),
returning the decoded characters and the input after the closing quote.
Strict mode: unescaped control characters are rejected. -/
def parseJStrBody : List Char → Option (List Char × List Char)
  | [] => none
  | c :: rest =>
    if c = '"' then some ([], rest)
    else if c = '\\' then
      match rest with
      | 'u' :: h1 :: h2 :: h3 :: h4 :: rest3 => do
        let n1 ← hexVal h1
        let n2 ← hexVal h2
        let n3 ← hexVal h3
        let n4 ← hexVal h4
        let sr ← parseJStrBody rest3
        pure (Char.ofNat (((n1 * 16 + n2) * 16 + n3) * 16 + n4) :: sr.1, sr.2)
      | e :: rest2 => do
        let c2 ← escCode e
        let sr ← parseJStrBody rest2
        pure (c2 :: sr.1, sr.2)
      | [] => none
    else if c.toNat < 32 then none
    else do
      let sr ← parseJStrBody rest
      pure (c :: sr.1, sr.2)

/-- Consume the digit run at the head of the input. -/
def takeDigits (l : List Char) : List Char × List Char :=
  (l.takeWhile Char.isDigit, l.dropWhile Char.isDigit)

/-- Parse a JSON number lexeme (int part, optional fraction, optional
exponent), returning the lexeme and the rest of the input. -/
def parseNumLex (l : List Char) : Option (List Char × List Char) :=
  let signed : Bool × List Char := match l with
    | '-' :: r => (true, r)
    | _ => (false, l)
  match signed.2 with
  | [] => none
  | c :: r =>
    if c = '0' ∨ ('1' ≤ c ∧ c ≤ '9') then
      let intPart : List Char × List Char :=
        if c = '0' then ([c], r)
        else
          let dr := takeDigits r
          (c :: dr.1, dr.2)
      let fracPart : List Char × List Char :=
        match intPart.2 with
        | '.' :: d :: r2 =>
          if d.isDigit then
            let dr := takeDigits r2
            ('.' :: d :: dr.1, dr.2)
          else ([], intPart.2)
        | _ => ([], intPart.2)
      let expPart : List Char × List Char :=
        match fracPart.2 with
        | e :: r2 =>
          if e = 'e' ∨ e = 'E' then
            match r2 with
            | s :: d :: r3 =>
              if (s = '+' ∨ s = '-') ∧ d.isDigit then
                let dr := takeDigits r3
                (e :: s :: d :: dr.1, dr.2)
              else if s.isDigit then
                let dr := takeDigits r2
                (e :: dr.1, dr.2)
              else ([], fracPart.2)
            | [s] =>
              if s.isDigit then ([e, s], []) else ([], fracPart.2)
            | [] => ([], fracPart.2)
          else ([], fracPart.2)
        | [] => ([], fracPart.2)
      some ((if signed.1 then ['-'] else []) ++ intPart.1 ++ fracPart.1 ++ expPart.1,
            expPart.2)
    else none

/-- Parse the comma-separated elements of a JSON array after its first
element position, `p` being the value parser.  Fuelled: the caller passes
fuel exceeding the number of elements. -/
def parseElems (p : List Char → Option (JVal × List Char)) :
    Nat → List Char → Option (List JVal × List Char)
  | 0, _ => none
  | fuel + 1, l =>
    match p l with
    | none => none
    | some vr =>
      match skipWs vr.2 with
      | ',' :: r2 =>
        (parseElems p fuel r2).map fun vsr => (vr.1 :: vsr.1, vsr.2)
      | ']' :: r2 => some ([vr.1], r2)
      | _ => none

/-- Parse the members of a JSON object after its first member position. -/
def parseMembers (p : List Char → Option (JVal × List Char)) :
    Nat → List Char → Option (List (String × JVal) × List Char)
  | 0, _ => none
  | fuel + 1, l =>
    match skipWs l with
    | '"' :: r =>
      match parseJStrBody r with
      | none => none
      | some kr =>
        match skipWs kr.2 with
        | ':' :: r2 =>
          match p r2 with
          | none => none
          | some vr =>
            match skipWs vr.2 with
            | ',' :: r3 =>
              (parseMembers p fuel r3).map fun msr =>
                ((⟨kr.1⟩, vr.1) :: msr.1, msr.2)
            | '}' :: r3 => some ([(⟨kr.1⟩, vr.1)], r3)
            | _ => none
        | _ => none
    | _ => none

/-- Parse one JSON value.  The fuel bounds the nesting depth; callers pass
more fuel than the input length, which always suffices. -/
def parseVal : Nat → List Char → Option (JVal × List Char)
  | 0, _ => none
  | fuel + 1, l =>
    match skipWs l with
    | [] => none
    | c :: r =>
      if c = 't' then
        if startsList ['r', 'u', 'e'] r then some (.jbool true, r.drop 3)
        else none
      else if c = 'f' then
        if startsList ['a', 'l', 's', 'e'] r then some (.jbool false, r.drop 4)
        else none
      else if c = 'n' then
        if startsList ['u', 'l', 'l'] r then some (.jnull, r.drop 3) else none
      else if c = 'N' then
        if startsList ['a', 'N'] r then some (.jnum "NaN", r.drop 2) else none
      else if c = 'I' then
        if startsList ['n', 'f', 'i', 'n', 'i', 't', 'y'] r then
          some (.jnum "Infinity", r.drop 7)
        else none
      else if c = '-' ∧ startsList ['I', 'n', 'f', 'i', 'n', 'i', 't', 'y'] r then
        some (.jnum "-Infinity", r.drop 8)
      else if c = '"' then
        (parseJStrBody r).map fun sr => (.jstr ⟨sr.1⟩, sr.2)
      else if c = '[' then
        match skipWs r with
        | ']' :: r2 => some (.jarr [], r2)
        | r1 =>
          (parseElems (parseVal fuel) (r1.length + 1) r1).map fun vsr =>
            (.jarr vsr.1, vsr.2)
      else if c = '{' then
        match skipWs r with
        | '}' :: r2 => some (.jobj [], r2)
        | r1 =>
          (parseMembers (parseVal fuel) (r1.length + 1) r1).map fun msr =>
            (.jobj msr.1, msr.2)
      else
        (parseNumLex (c :: r)).map fun nr => (.jnum ⟨nr.1⟩, nr.2)

/-- json.loads: parse a whole string as a single JSON document (trailing
whitespace allowed), or fail. -/
def jsonParse (s : String) : Option JVal :=
  match parseVal (s.data.length + 2) s.data with
  | some vr => if skipWs vr.2 = [] then some vr.1 else none
  | none => none

/-! ### Python str() of parsed JSON values

_parse_list applies str() to every element of a decoded JSON array.
For the scalar JSON values this follows CPython exactly (str of a decoded
string is itself, True, False, None, and the numeric lexeme, which is
exact for JSON integers); nested containers are rendered through repr as
CPython does, with repr's single-quote preference for strings. -/

/-- Python repr() of a string: single quotes unless the string contains a
single quote and no double quote; backslash, the quote and common control
characters escaped. -/
def pyReprStr (s : String) : String :=
  let q : Char :=
    if s.data.contains '\'' && !(s.data.contains '"') then '"' else '\''
  let body := s.data.foldr (fun c acc =>
    (if c = '\\' then ['\\', '\\']
     else if c = q then ['\\', q]
     else if c = '\n' then ['\\', 'n']
     else if c = '\r' then ['\\', 'r']
     else if c = '\t' then ['\\', 't']
     else if c.toNat < 32 then
       ['\\', 'x', hexDigit (c.toNat / 16), hexDigit (c.toNat % 16)]
     else [c]) ++ acc) []
  ⟨q :: body ++ [q]⟩

mutual

/-- Python repr() of a decoded JSON value. -/
def pyRepr : JVal → String
  | .jnull => "None"
  | .jbool true => "True"
  | .jbool false => "False"
  | .jnum lex => lex
  | .jstr s => pyReprStr s
  | .jarr items => "[" ++ pyReprItems items ++ "]"
  | .jobj fields => "\x7b" ++ pyReprFields fields ++ "\x7d"

/-- Comma-separated reprs of the items of a decoded JSON array. -/
def pyReprItems : List JVal → String
  | [] => ""
  | [v] => pyRepr v
  | v :: vs => pyRepr v ++ ", " ++ pyReprItems vs

/-- Comma-separated reprs of the members of a decoded JSON object. -/
def pyReprFields : List (String × JVal) → String
  | [] => ""
  | [kv] => pyReprStr kv.1 ++ ": " ++ pyRepr kv.2
  | kv :: kvs => pyReprStr kv.1 ++ ": " ++ pyRepr kv.2 ++ ", " ++ pyReprFields kvs

end

/-- Python str() of a decoded JSON value. -/
def pyStr : JVal → String
  | .jnull => "None"
  | .jbool true => "True"
  | .jbool false => "False"
  | .jnum lex => lex
  | .jstr s => s
  | .jarr items => pyRepr (.jarr items)
  | .jobj fields => pyRepr (.jobj fields)

/-! ### The importer's normalizers (importer.py lines 20-64) -/

/-- The pipe-splitting fallback of _parse_list (importer.py line 29): split
on the pipe character, trim each token, drop the empties. -/
def pipeTokens (v : String) : List String :=
  ((splitChar '|' v.data).map fun t => pyStrip ⟨t⟩).filter fun t => t ≠ ""

/-- _parse_list (importer.py lines 20-32): strip the value; empty gives
None; try json.loads, and on decode failure split on the pipe character,
trimming tokens and dropping empties; a decoded non-list gives None; list
elements pass through str() and blank-stripping ones are dropped. -/
def parse_list : Option String → Option (List String)
  | none => none
  | some v0 =>
    let v := pyStrip v0
    if v = "" then none
    else
      match jsonParse v with
      | some (.jarr items) =>
        some ((items.filter fun it => pyStrip (pyStr it) ≠ "").map pyStr)
      | some _ => none
      | none =>
        some ((pipeTokens v).filter fun s => pyStrip s ≠ "")

/-- Key decoding used by _parse_attacks: a column participates when its
name starts with "attacks_" and splits (on the first two underscores) into
exactly three parts; the second and third parts are the index token and
the attribute name. -/
def attackPart (k : String) : Option (String × String) :=
  if startsList "attacks_".data k.data then
    match pySplitMax '_' 2 k.data with
    | [_, i, a] => some (⟨i⟩, ⟨a⟩)
    | _ => none
  else none

/-- The grouping loop of _parse_attacks: fold the row's bindings into a
dict from index token to the dict of that index's attributes (insertion
order preserved, later values for the same attribute overwriting). -/
def attackInsert (acc : List (String × List (String × String)))
    (kv : String × String) : List (String × List (String × String)) :=
  if kv.2 = "" then acc
  else
    match attackPart kv.1 with
    | none => acc
    | some ia => dModify [] (fun g => dUpsert g ia.2 kv.2) acc ia.1

def collectAttacks (row : List (String × String)) :
    List (String × List (String × String)) :=
  row.foldl attackInsert []

/-- Ordering relation used to sort attack groups: Python sorted() with the
index token as key. -/
def keyLe (p q : String × List (String × String)) : Prop :=
  pyStrLe p.1 q.1 = true

instance : DecidableRel keyLe := fun p q =>
  inferInstanceAs (Decidable (pyStrLe p.1 q.1 = true))

/-- _parse_attacks (importer.py lines 35-51): group the attacks_ columns
with non-empty values by index token, order the groups by sorting on the
index token, and serialize them as a JSON array of objects; None when no
group is non-empty.  (In the importer this is applied to the prepared
payload, whose values are non-empty strings, so the source's check for a
None or empty cell is the emptiness test.) -/
def parse_attacks (row : List (String × String)) : Option String :=
  let attacks := collectAttacks row
  if attacks.isEmpty then none
  else
    some ⟨dumpsObjListChars ((List.insertionSort keyLe attacks).map Prod.snd)⟩

/-- _prepare_payload (importer.py lines 54-64): drop None cells, strip
string values and drop the blank ones, strip the keys; insertion into the
payload dict keeps the first position of a repeated key. -/
def prepInsert (acc : List (String × String)) (kv : String × Option String) :
    List (String × String) :=
  match kv.2 with
  | none => acc
  | some s =>
    let v := pyStrip s
    if v = "" then acc else dUpsert acc (pyStrip kv.1) v

def prepare_payload (row : List (String × Option String)) :
    List (String × String) :=
  row.foldl prepInsert []

/-! ### The Card row (models.py) and the persistence session (db.py)

The cards table keys rows by the natural key (set_id, number), which
carries a unique constraint; the importer only ever resolves and writes
cards through that key, so the store is a map from the key to the columns
the importer sees (the DB-managed id and timestamps are not
modelled).  The session (sessionmaker with autocommit=False) is a
committed store plus the current transaction's view: flush applies pending
changes to the transaction, rollback resets the transaction to the
committed store, commit publishes it. -/

structure CardRec where
  name : Option String
  hp : Option String
  types : Option String
  rarity : Option String
  set_name : Option String
  set_id : String
  number : String
  artist : Option String
  ability_name : Option String
  ability_text : Option String
  attacks : Option String
  weaknesses : Option String
  resistances : Option String
  retreat_cost : Option String
  image_path : Option String
  image_url : Option String
deriving DecidableEq

/-- Card(set_id=..., number=...): a fresh ORM object with every other
column unset. -/
def newCard (set_id number : String) : CardRec :=
  { name := none, hp := none, types := none, rarity := none,
    set_name := none, set_id := set_id, number := number, artist := none,
    ability_name := none, ability_text := none, attacks := none,
    weaknesses := none, resistances := none, retreat_cost := none,
    image_path := none, image_url := none }

/-- The cards table, keyed by the natural key. -/
abbrev Store := List ((String × String) × CardRec)

/-- Natural-key lookup (the one_or_none query of importer.py line 124). -/
def sGet (k : String × String) : Store → Option CardRec
  | [] => none
  | kv :: rest => if kv.1 = k then some kv.2 else sGet k rest

/-- Write a card under its natural key (the effect of a successful
session.flush for a new or mutated card). -/
def sPut (k : String × String) (c : CardRec) : Store → Store
  | [] => [(k, c)]
  | kv :: rest => if kv.1 = k then (k, c) :: rest else kv :: sPut k c rest

/-- One error entry of the stats dictionary. -/
structure ErrEntry where
  row : Nat
  error : String
deriving DecidableEq

/-- The import loop's running state: the session (committed store and
transaction view) plus the stats counters and error list. -/
structure ImpState where
  committed : Store
  tx : Store
  created : Nat
  updated : Nat
  skipped : Nat
  errors : List ErrEntry
deriving DecidableEq

/-- External collaborators of the row loop: the image directory lookups of
images.py (resolve_image_reference and guess_local_image read the
filesystem) and the database engine's flush behaviour.  blow i is true
when the engine raises IntegrityError at row i's flush — within a single
sequential session the engine's uniqueness check agrees with the
one_or_none query, so a violation can only come from causes outside the
session (concurrent writers, collation differences); blowMsg i is the
str(exc.orig) text of that error. -/
structure Env where
  resolveImg : Option String → Option String
  guessImg : String → String → Option String
  blow : Nat → Bool
  blowMsg : Nat → String

/-- Python truthiness filter on an optional string: None and the empty
string are falsy. -/
def otruthy : Option String → Option String
  | some "" => none
  | o => o

/-- Overwrite-if-provided: the stored value when the payload has one, the
card's previous value otherwise. -/
def fieldPut (provided : Option String) (old : Option String) : Option String :=
  match provided with
  | some v => some v
  | none => old

/-- Normalization of a provided list-like cell (importer.py lines 143-168):
json.dumps(_parse_list(value) or [], ensure_ascii=False). -/
def listField (v : String) : String :=
  jsonDumpsList ((parse_list (some v)).getD [])

/-- Local image resolution of importer.py lines 174-179: the image_path
cell, else resolve_image_reference on the vernacular image cells, else
guess_local_image from the natural key; each step skipped when the
previous produced a truthy value. -/
def localImage (env : Env) (payload : List (String × String))
    (set_id number : String) : Option String :=
  match otruthy (dGet "image_path" payload) with
  | some v => some v
  | none =>
    match otruthy (env.resolveImg
        (dGet "Imagem" payload <|> dGet "imagem" payload)) with
    | some v => some v
    | none => otruthy (env.guessImg set_id number)

/-- Field application of importer.py lines 136-181: write every field the
payload provides onto the card.  Each of the source's assignments reads
only the payload (never another card field), so the assignment sequence
is one simultaneous record update.  The attacks column (lines 169-170) is
assigned unconditionally from _parse_attacks, and the local image path
(lines 180-181) is assigned whenever resolution produced something. -/
def applyFields (env : Env) (payload : List (String × String))
    (set_id number : String) (c0 : CardRec) : CardRec :=
  { name := fieldPut (dGet "name" payload) c0.name,
    hp := fieldPut (dGet "hp" payload <|> dGet "hp_str" payload) c0.hp,
    types := fieldPut ((dGet "types" payload <|> dGet "type" payload).map
      listField) c0.types,
    rarity := fieldPut (dGet "rarity" payload) c0.rarity,
    set_name := fieldPut (dGet "set_name" payload <|> dGet "set" payload)
      c0.set_name,
    set_id := c0.set_id,
    number := c0.number,
    artist := fieldPut (dGet "artist" payload) c0.artist,
    ability_name := fieldPut (dGet "ability_name" payload <|>
      dGet "abilities_0_name" payload) c0.ability_name,
    ability_text := fieldPut (dGet "ability_text" payload <|>
      dGet "abilities_0_text" payload) c0.ability_text,
    attacks := parse_attacks payload,
    weaknesses := fieldPut ((dGet "weaknesses" payload).map listField)
      c0.weaknesses,
    resistances := fieldPut ((dGet "resistances" payload).map listField)
      c0.resistances,
    retreat_cost := fieldPut ((dGet "retreat_cost" payload <|>
      dGet "retreat" payload).map listField) c0.retreat_cost,
    image_path := fieldPut (localImage env payload set_id number)
      c0.image_path,
    image_url := fieldPut (dGet "image_url" payload <|>
      dGet "images_small" payload) c0.image_url }

/-- One input row as produced by csv.DictReader: ordered column bindings,
a missing trailing cell read as None. -/
abbrev Row := List (String × Option String)

/-- Natural-key extraction of importer.py lines 115-117: each component
through its two header aliases, None when either is missing. -/
def keyOf (payload : List (String × String)) : Option (String × String) :=
  match dGet "set_id" payload <|> dGet "setId" payload,
        dGet "number" payload <|> dGet "card_number" payload with
  | some s, some n => some (s, n)
  | _, _ => none

/-- The body of the row loop of import_csv (importer.py lines 113-192) for
the row with 1-based index i. -/
def processRow (env : Env) (i : Nat) (row : Row) (st : ImpState) : ImpState :=
  let payload := prepare_payload row
  match keyOf payload with
  | some (set_id, number) =>
    let existing := sGet (set_id, number) st.tx
    let isNew := existing.isNone
    if isNew && (dGet "name" payload).isNone then
      { st with skipped := st.skipped + 1,
                errors := st.errors ++ [⟨i, "Missing name"⟩] }
    else
      let card := applyFields env payload set_id number
        (existing.getD (newCard set_id number))
      if env.blow i then
        { st with tx := st.committed,
                  skipped := st.skipped + 1,
                  errors := st.errors ++ [⟨i, env.blowMsg i⟩] }
      else
        let st1 := { st with tx := sPut (set_id, number) card st.tx }
        if isNew then { st1 with created := st1.created + 1 }
        else { st1 with updated := st1.updated + 1 }
  | none =>
    { st with skipped := st.skipped + 1,
              errors := st.errors ++ [⟨i, "Missing set_id or number"⟩] }

/-- The row loop: enumerate(reader, start=1) processed in order. -/
def runRows (env : Env) : Nat → List Row → ImpState → ImpState
  | _, [], st => st
  | i, r :: rs, st => runRows env (i + 1) rs (processRow env i r st)

/-- Fresh session over a committed store. -/
def initState (store : Store) : ImpState :=
  { committed := store, tx := store,
    created := 0, updated := 0, skipped := 0, errors := [] }

/-- The final session.commit() of importer.py line 193. -/
def commitFinal (st : ImpState) : ImpState :=
  { st with committed := st.tx }

/-! ### File handling (importer.py lines 67-110) -/

/-- Character encodings exercised by the importer model. -/
inductive PyEncoding where
  | ascii
  | latin1
deriving DecidableEq

/-- Decode a byte sequence under an encoding.  Latin-1 maps every byte to
the code point of its value and never fails; ASCII rejects bytes at or
above 128. -/
def decodeBytes : PyEncoding → List Nat → Option (List Char)
  | .latin1, bs => some (bs.map fun b => Char.ofNat (b % 256))
  | .ascii, bs =>
    if bs.all (fun b => b % 256 < 128) then some (bs.map fun b => Char.ofNat (b % 256))
    else none

/-- An open text handle: CPython's open() builds a lazy TextIOWrapper and
performs no decoding at open time, so opening cannot raise
UnicodeDecodeError; decoding happens when the handle is read. -/
structure Handle where
  bytes : List Nat
  enc : PyEncoding

/-- Python open(path, encoding=...): always returns the lazy handle. -/
def pyOpen (bytes : List Nat) (enc : PyEncoding) : Except Unit Handle :=
  .ok ⟨bytes, enc⟩

/-- _open_csv (importer.py lines 76-81): try to open under the detected
encoding and fall back to latin1 on UnicodeDecodeError.  Because open()
defers decoding, the except branch is unreachable. -/
def openCsvHandle (bytes : List Nat) (enc : PyEncoding) : Handle :=
  match pyOpen bytes enc with
  | .ok h => h
  | .error _ => ⟨bytes, .latin1⟩

/-- Reading through the handle decodes the bytes; None is the
UnicodeDecodeError raised at read time (in _prepare_reader's sample read
or during row iteration). -/
def readAll (h : Handle) : Option (List Char) :=
  decodeBytes h.enc h.bytes

/-- The ways import_csv raises instead of returning stats. -/
inductive ImpError where
  | fileNotFound (path : String)
  | decodeError
deriving DecidableEq

/-- External collaborators of the file layer: the filesystem, chardet's
detection (applied to the first 4096 bytes) and the csv module's dialect
sniffing and DictReader, which turn the decoded text into rows. -/
structure IOEnv where
  fs : String → Option (List Nat)
  detect : List Nat → PyEncoding
  reader : List Char → List Row

/-- import_csv (importer.py lines 96-199): fail fast when the path does
not exist; detect the encoding, open, read and decode the file (a decode
failure propagates out — the latin1 retry of _open_csv cannot trigger);
run the row loop inside one session and commit at the end. -/
def import_csv (io : IOEnv) (env : Env) (path : String) (store : Store) :
    Except ImpError ImpState :=
  match io.fs path with
  | none => .error (.fileNotFound path)
  | some bytes =>
    let hnd := openCsvHandle bytes (io.detect (bytes.take 4096))
    match readAll hnd with
    | none => .error .decodeError
    | some chars =>
      .ok (commitFinal (runRows env 1 (io.reader chars) (initState store)))

/-! ### Scenario constants and row-level predicates used by the theorems -/

/-- A cell that the importer treats as absent: a None value or a value that
is blank after stripping. -/
def cellBlank (o : Option String) : Prop :=
  o = none ∨ pyStrip (o.getD "") = ""

/-- The row provides no usable value under the (stripped) column name `k`:
every cell bound to that name is blank or None. -/
def rowLacks (row : Row) (k : String) : Prop :=
  ∀ kv ∈ row, pyStrip kv.1 = k → cellBlank kv.2

instance (o : Option String) : Decidable (cellBlank o) := by
  unfold cellBlank; infer_instance

instance (row : Row) (k : String) : Decidable (rowLacks row k) := by
  unfold rowLacks; infer_instance

/-- Image environment in which the images directory resolves nothing, and
the database never raises: used by concrete witnesses. -/
def envPlain : Env :=
  ⟨fun _ => none, fun _ _ => none, fun _ => false, fun _ => ""⟩

/-- Rows and environments used by the C1 and C2 scenarios. -/
def rowPika : Row :=
  [("set_id", some "base"), ("number", some "1"), ("name", some "Pika")]

def rowChar : Row :=
  [("set_id", some "base"), ("number", some "2"), ("name", some "Char")]

/-- The sqlite text of str(exc.orig) for the cards uniqueness constraint. -/
def sqliteUniqueMsg : String :=
  "UNIQUE constraint failed: cards.set_id, cards.number"

/-- Database raises IntegrityError at the second row's flush only. -/
def envBoomAt2 : Env :=
  ⟨fun _ => none, fun _ _ => none, fun i => i == 2, fun _ => sqliteUniqueMsg⟩

def ioTwoRows : IOEnv :=
  ⟨fun _ => some [], fun _ => .ascii, fun _ => [rowPika, rowChar]⟩

/-- Existing stored card and update row used by the C2 scenario. -/
def cardWithAttacks : CardRec :=
  { newCard "base" "4" with
      name := some "X", attacks := some "[\x7b\"name\": \"Scratch\"\x7d]" }

def stWithAttacks : ImpState :=
  initState [(("base", "4"), cardWithAttacks)]

def rowRarity : Row :=
  [("set_id", some "base"), ("number", some "4"), ("rarity", some "Rare")]

/-- The C3 failing input: 4096 ASCII bytes (so chardet's 4096-byte sample
is pure ASCII and detection reports ascii) followed by the Latin-1 byte
0xE9 (an accented e), which is invalid under the detected encoding. -/
def latin1File : List Nat :=
  List.replicate 4096 97 ++ [233]

/-- A cell of the row contributing to attack group `idx`, attribute
`attr`: its column decodes to that index and attribute and its value is
non-empty. -/
def isAtkCell (idx attr : String) (kv : String × String) : Bool :=
  decide (attackPart kv.1 = some (idx, attr)) && decide (kv.2 ≠ "")

/-- The value stored for attribute `attr` of attack group `idx`: the last
contributing cell of the row wins. -/
def lastAttackVal (row : List (String × String)) (idx attr : String) :
    Option String :=
  (row.reverse.find? (isAtkCell idx attr)).map Prod.snd

/-! ### Shared lemmas about the dictionary operations and the payload -/

theorem dGet_dUpsert {β : Type} (acc : List (String × β)) (k0 k : String) (v : β) :
    dGet k (dUpsert acc k0 v) = if k0 = k then some v else dGet k acc := by
  induction acc with
  | nil => simp [dUpsert, dGet]
  | cons kv rest ih =>
    obtain ⟨k1, v1⟩ := kv
    by_cases h1 : k1 = k0 <;> by_cases h2 : k1 = k <;>
      by_cases h3 : k0 = k <;> simp_all [dUpsert, dGet]

theorem dGet_prepInsert_none (acc : List (String × String))
    (kv : String × Option String) (k : String) :
    dGet k (prepInsert acc kv) = none ↔
      dGet k acc = none ∧ (pyStrip kv.1 = k → cellBlank kv.2) := by
  obtain ⟨k1, o⟩ := kv
  match o with
  | none => simp [prepInsert, cellBlank]
  | some s =>
    by_cases hb : pyStrip s = ""
    · simp [prepInsert, hb, cellBlank]
    · by_cases hk : pyStrip k1 = k
      · simp [prepInsert, hb, dGet_dUpsert, hk, cellBlank]
      · simp [prepInsert, hb, dGet_dUpsert, hk]

/-- Absence from the prepared payload is exactly absence-or-blankness in
the raw row (the spec's Row Reader drops blank cells before the upsert). -/
theorem dGet_prepare_none (row : Row) (k : String) :
    dGet k (prepare_payload row) = none ↔ rowLacks row k := by
  have main : ∀ (row : Row) (acc : List (String × String)),
      dGet k (row.foldl prepInsert acc) = none ↔
        (dGet k acc = none ∧ rowLacks row k) := by
    intro row
    induction row with
    | nil => intro acc; simp [rowLacks]
    | cons kv rest ih =>
      intro acc
      rw [List.foldl_cons, ih, dGet_prepInsert_none]
      simp only [rowLacks, List.forall_mem_cons]
      tauto
  rw [prepare_payload, main]
  simp [dGet, rowLacks]

theorem keyOf_none_left (p : List (String × String))
    (h : (dGet "set_id" p <|> dGet "setId" p) = none) : keyOf p = none := by
  unfold keyOf
  rw [h]

theorem keyOf_none_right (p : List (String × String))
    (h : (dGet "number" p <|> dGet "card_number" p) = none) : keyOf p = none := by
  unfold keyOf
  rw [h]
  rcases dGet "set_id" p <|> dGet "setId" p with _ | v <;> rfl

/-! ### Claim theorems -/

/-- C9: a path that names no existing file makes import_csv raise
file-not-found at once, before any file handle or session exists, with no
partial result. -/
theorem c9_file_not_found (io : IOEnv) (env : Env) (path : String)
    (store : Store) (h : io.fs path = none) :
    import_csv io env path store = .error (.fileNotFound path) := by
  unfold import_csv
  rw [h]

theorem c9_file_not_found_witness :
    (fun _ : String => (none : Option (List Nat))) "missing.csv" = none ∧
    import_csv ⟨fun _ => none, fun _ => .ascii, fun _ => []⟩ envPlain
      "missing.csv" [] = .error (.fileNotFound "missing.csv") :=
  ⟨rfl, c9_file_not_found ⟨fun _ => none, fun _ => .ascii, fun _ => []⟩
    envPlain "missing.csv" [] rfl⟩

/-- C4: a row in which both set-identifier aliases, or both number
aliases, are absent or blank is skipped with exactly one errors entry
"Missing set_id or number" carrying the row's 1-based index, and no
stored record is created or modified. -/
theorem c4_missing_key_skips (env : Env) (i : Nat) (row : Row)
    (st : ImpState)
    (h : (rowLacks row "set_id" ∧ rowLacks row "setId") ∨
         (rowLacks row "number" ∧ rowLacks row "card_number")) :
    processRow env i row st =
      { st with skipped := st.skipped + 1,
                errors := st.errors ++ [⟨i, "Missing set_id or number"⟩] } := by
  have hkey : keyOf (prepare_payload row) = none := by
    rcases h with ⟨h1, h2⟩ | ⟨h1, h2⟩
    · exact keyOf_none_left _ (by
        rw [← dGet_prepare_none (k := "set_id")] at h1
        rw [← dGet_prepare_none (k := "setId")] at h2
        rw [h1, h2]; rfl)
    · exact keyOf_none_right _ (by
        rw [← dGet_prepare_none (k := "number")] at h1
        rw [← dGet_prepare_none (k := "card_number")] at h2
        rw [h1, h2]; rfl)
  simp only [processRow, hkey]

theorem c4_missing_key_skips_witness :
    ((rowLacks [("name", some "Pika"), ("set_id", some "  ")] "set_id" ∧
      rowLacks [("name", some "Pika"), ("set_id", some "  ")] "setId") ∨
     (rowLacks [("name", some "Pika"), ("set_id", some "  ")] "number" ∧
      rowLacks [("name", some "Pika"), ("set_id", some "  ")] "card_number")) ∧
    processRow envPlain 1 [("name", some "Pika"), ("set_id", some "  ")]
        (initState []) =
      { initState [] with skipped := 1,
                          errors := [⟨1, "Missing set_id or number"⟩] } :=
  ⟨Or.inl ⟨by decide, by decide⟩,
   c4_missing_key_skips envPlain 1 _ (initState [])
     (Or.inl ⟨by decide, by decide⟩)⟩

/-- C5: a row whose natural key matches no existing record and whose name
cell is absent or blank is skipped with the errors entry "Missing name",
and afterwards there is still no record under that key: the row creates
nothing. -/
theorem c5_missing_name_skips (env : Env) (i : Nat) (row : Row)
    (st : ImpState) (set_id number : String)
    (hkey : keyOf (prepare_payload row) = some (set_id, number))
    (hnew : sGet (set_id, number) st.tx = none)
    (hname : rowLacks row "name") :
    processRow env i row st =
      { st with skipped := st.skipped + 1,
                errors := st.errors ++ [⟨i, "Missing name"⟩] } ∧
    sGet (set_id, number) (processRow env i row st).tx = none := by
  have hn : dGet "name" (prepare_payload row) = none :=
    (dGet_prepare_none row "name").mpr hname
  have hmain : processRow env i row st =
      { st with skipped := st.skipped + 1,
                errors := st.errors ++ [⟨i, "Missing name"⟩] } := by
    simp only [processRow, hkey, hnew, hn, Option.isNone_none, Bool.and_self,
      if_true]
  exact ⟨hmain, by rw [hmain]; exact hnew⟩

theorem c5_missing_name_skips_witness :
    keyOf (prepare_payload [("set_id", some "base"), ("number", some "9")]) =
        some ("base", "9") ∧
    sGet ("base", "9") (initState []).tx = none ∧
    rowLacks [("set_id", some "base"), ("number", some "9")] "name" ∧
    (processRow envPlain 2 [("set_id", some "base"), ("number", some "9")]
        (initState []) =
      { initState [] with skipped := 1, errors := [⟨2, "Missing name"⟩] } ∧
     sGet ("base", "9")
        (processRow envPlain 2 [("set_id", some "base"), ("number", some "9")]
          (initState [])).tx = none) :=
  ⟨by decide, rfl, by decide,
   c5_missing_name_skips envPlain 2 _ (initState []) "base" "9"
     (by decide) rfl (by decide)⟩

/-! ### Counting lemmas for the row loop -/

theorem processRow_skip_err (env : Env) (i : Nat) (r : Row) (st : ImpState) :
    (processRow env i r st).skipped + st.errors.length =
      (processRow env i r st).errors.length + st.skipped := by
  simp only [processRow]
  rcases hk : keyOf (prepare_payload r) with _ | ⟨s, n⟩
  · simp; omega
  · by_cases h1 :
      ((sGet (s, n) st.tx).isNone && (dGet "name" (prepare_payload r)).isNone) = true
    · simp [h1]; omega
    · by_cases h2 : env.blow i = true
      · simp [h1, h2]; omega
      · by_cases h3 : (sGet (s, n) st.tx).isNone = true <;>
          by_cases h4 : (dGet "name" (prepare_payload r)).isNone = true <;>
          simp_all <;> omega

theorem processRow_total (env : Env) (i : Nat) (r : Row) (st : ImpState) :
    (processRow env i r st).created + (processRow env i r st).updated +
        (processRow env i r st).skipped =
      st.created + st.updated + st.skipped + 1 := by
  simp only [processRow]
  rcases hk : keyOf (prepare_payload r) with _ | ⟨s, n⟩
  · simp; omega
  · by_cases h1 :
      ((sGet (s, n) st.tx).isNone && (dGet "name" (prepare_payload r)).isNone) = true
    · simp [h1]; omega
    · by_cases h2 : env.blow i = true
      · simp [h1, h2]; omega
      · by_cases h3 : (sGet (s, n) st.tx).isNone = true <;>
          by_cases h4 : (dGet "name" (prepare_payload r)).isNone = true <;>
          simp_all <;> omega

theorem runRows_cons (env : Env) (i : Nat) (r : Row) (rs : List Row)
    (st : ImpState) :
    runRows env i (r :: rs) st = runRows env (i + 1) rs (processRow env i r st) :=
  rfl

theorem runRows_append (env : Env) (pre post : List Row) :
    ∀ (i : Nat) (st : ImpState),
      runRows env i (pre ++ post) st =
        runRows env (i + pre.length) post (runRows env i pre st) := by
  induction pre with
  | nil => intro i st; simp [runRows]
  | cons r rs ih =>
    intro i st
    rw [List.cons_append, runRows_cons, ih, runRows_cons]
    have : i + 1 + rs.length = i + (rs.length + 1) := by omega
    rw [this]
    rfl

theorem runRows_skip_err (env : Env) (rows : List Row) :
    ∀ (i : Nat) (st : ImpState),
      (runRows env i rows st).skipped + st.errors.length =
        (runRows env i rows st).errors.length + st.skipped := by
  induction rows with
  | nil => intro i st; simp only [runRows]; omega
  | cons r rs ih =>
    intro i st
    rw [runRows_cons]
    have h1 := ih (i + 1) (processRow env i r st)
    have h2 := processRow_skip_err env i r st
    omega

theorem runRows_total (env : Env) (rows : List Row) :
    ∀ (i : Nat) (st : ImpState),
      (runRows env i rows st).created + (runRows env i rows st).updated +
          (runRows env i rows st).skipped =
        st.created + st.updated + st.skipped + rows.length := by
  induction rows with
  | nil => intro i st; simp [runRows]
  | cons r rs ih =>
    intro i st
    rw [runRows_cons]
    have h1 := ih (i + 1) (processRow env i r st)
    have h2 := processRow_total env i r st
    simp only [List.length_cons]
    omega

/-- Inversion of a successful import_csv run: the path resolved to file
bytes, they decoded under the handle's encoding, and the result is the
committed end state of the row loop over the reader's rows. -/
theorem import_csv_ok (io : IOEnv) (env : Env) (path : String)
    (store : Store) (st : ImpState)
    (h : import_csv io env path store = .ok st) :
    ∃ bytes chars, io.fs path = some bytes ∧
      readAll (openCsvHandle bytes (io.detect (bytes.take 4096))) = some chars ∧
      st = commitFinal (runRows env 1 (io.reader chars) (initState store)) := by
  simp only [import_csv] at h
  split at h
  · exact absurd h (by simp)
  · rename_i bytes hfs
    split at h
    · exact absurd h (by simp)
    · rename_i chars hdec
      simp only [Except.ok.injEq] at h
      exact ⟨bytes, chars, hfs, hdec, h.symm⟩

/-- C10: every stats record returned by import_csv satisfies
skipped == length of the errors list: each of the three skip paths appends
exactly one error and adds exactly one skip, and no other path touches
either counter. -/
theorem c10_skipped_eq_errors (io : IOEnv) (env : Env) (path : String)
    (store : Store) (st : ImpState)
    (h : import_csv io env path store = .ok st) :
    st.skipped = st.errors.length := by
  obtain ⟨bytes, chars, hfs, hdec, hst⟩ := import_csv_ok io env path store st h
  have hmain := runRows_skip_err env (io.reader chars) 1 (initState store)
  simp only [initState, List.length_nil, Nat.add_zero] at hmain
  rw [hst]
  simpa [commitFinal] using hmain

theorem c10_skipped_eq_errors_witness :
    import_csv ⟨fun _ => some [], fun _ => .ascii,
        fun _ => [[("name", some "NoKey")],
                  [("set_id", some "base"), ("number", some "1"),
                   ("name", some "Pika")]]⟩ envPlain "cards.csv" [] =
      .ok (commitFinal (runRows envPlain 1
        [[("name", some "NoKey")],
         [("set_id", some "base"), ("number", some "1"),
          ("name", some "Pika")]] (initState []))) ∧
    (commitFinal (runRows envPlain 1
        [[("name", some "NoKey")],
         [("set_id", some "base"), ("number", some "1"),
          ("name", some "Pika")]] (initState []))).skipped =
      (commitFinal (runRows envPlain 1
        [[("name", some "NoKey")],
         [("set_id", some "base"), ("number", some "1"),
          ("name", some "Pika")]] (initState []))).errors.length :=
  ⟨rfl, c10_skipped_eq_errors ⟨fun _ => some [], fun _ => .ascii,
      fun _ => [[("name", some "NoKey")],
                [("set_id", some "base"), ("number", some "1"),
                 ("name", some "Pika")]]⟩ envPlain "cards.csv" [] _ rfl⟩

/-! ### C1: what a per-row IntegrityError actually rolls back -/

/-- C1 counterexample: importing two rows where the second row's flush
raises an integrity violation records the error and the skip exactly as
the claim says, and the import is not aborted — but the first row's
already-persisted (flushed, uncommitted) creation does NOT remain in
effect: session.rollback() rolls back the whole open transaction, so the
final committed store holds no card under the first row's natural key even
though created == 1 was reported for it. -/
theorem c1_rollback_counterexample :
    (import_csv ioTwoRows envBoomAt2 "cards.csv" []).map (fun st =>
        (st.created, st.skipped, st.errors, sGet ("base", "1") st.committed)) =
      .ok (1, 1, [⟨2, sqliteUniqueMsg⟩], none) := by
  rfl

/-- C1 amended: when the flush of a row raises a uniqueness/integrity
violation, import_csv records that row's error message, counts the row in
skipped, and continues with the subsequent rows (one bad row never aborts
the batch) — but the rollback resets the transaction to the last committed
state, discarding the flushed-but-uncommitted changes of ALL earlier rows
of the import, not only that row's change. -/
theorem c1_rollback_amended (env : Env) (pre post : List Row) (row : Row)
    (st0 : ImpState) (s n : String)
    (hkey : keyOf (prepare_payload row) = some (s, n))
    (hflush : ((sGet (s, n) (runRows env 1 pre st0).tx).isNone &&
        (dGet "name" (prepare_payload row)).isNone) = false)
    (hblow : env.blow (1 + pre.length) = true) :
    runRows env 1 (pre ++ row :: post) st0 =
      runRows env (1 + pre.length + 1) post
        { runRows env 1 pre st0 with
            tx := (runRows env 1 pre st0).committed,
            skipped := (runRows env 1 pre st0).skipped + 1,
            errors := (runRows env 1 pre st0).errors ++
              [⟨1 + pre.length, env.blowMsg (1 + pre.length)⟩] } := by
  rw [runRows_append, runRows_cons]
  congr 1
  simp only [processRow, hkey, hflush, hblow]
  rfl

theorem c1_rollback_amended_witness :
    keyOf (prepare_payload rowChar) = some ("base", "2") ∧
    ((sGet ("base", "2") (runRows envBoomAt2 1 [rowPika] (initState [])).tx).isNone &&
        (dGet "name" (prepare_payload rowChar)).isNone) = false ∧
    envBoomAt2.blow (1 + [rowPika].length) = true ∧
    runRows envBoomAt2 1 ([rowPika] ++ rowChar :: []) (initState []) =
      runRows envBoomAt2 (1 + [rowPika].length + 1) []
        { runRows envBoomAt2 1 [rowPika] (initState []) with
            tx := (runRows envBoomAt2 1 [rowPika] (initState [])).committed,
            skipped := (runRows envBoomAt2 1 [rowPika] (initState [])).skipped + 1,
            errors := (runRows envBoomAt2 1 [rowPika] (initState [])).errors ++
              [⟨1 + [rowPika].length,
                envBoomAt2.blowMsg (1 + [rowPika].length)⟩] } :=
  ⟨by decide, by decide, by decide,
   c1_rollback_amended envBoomAt2 [rowPika] [] rowChar (initState []) "base" "2"
     (by decide) (by decide) (by decide)⟩

/-! ### C2: what a partial update preserves -/

theorem sGet_sPut (s : Store) (k0 k : String × String) (c : CardRec) :
    sGet k (sPut k0 c s) = if k0 = k then some c else sGet k s := by
  induction s with
  | nil => simp [sPut, sGet]
  | cons kv rest ih =>
    obtain ⟨k1, c1⟩ := kv
    by_cases h1 : k1 = k0 <;> by_cases h2 : k1 = k <;>
      by_cases h3 : k0 = k <;> simp_all [sPut, sGet]

theorem dModify_ne_nil {β : Type} (dflt : β) (f : β → β)
    (d : List (String × β)) (k : String) : dModify dflt f d k ≠ [] := by
  cases d with
  | nil => simp [dModify]
  | cons kv rest =>
    obtain ⟨k0, v0⟩ := kv
    by_cases h : k0 = k <;> simp [dModify, h]

theorem foldl_attackInsert_eq_nil (row : List (String × String)) :
    ∀ acc, row.foldl attackInsert acc = [] ↔
      acc = [] ∧ ∀ kv ∈ row, kv.2 = "" ∨ attackPart kv.1 = none := by
  induction row with
  | nil => intro acc; simp
  | cons kv rest ih =>
    intro acc
    rw [List.foldl_cons, ih]
    have hstep : attackInsert acc kv = [] ↔
        acc = [] ∧ (kv.2 = "" ∨ attackPart kv.1 = none) := by
      by_cases hv : kv.2 = ""
      · simp [attackInsert, hv]
      · cases hap : attackPart kv.1 with
        | none => simp [attackInsert, hv, hap]
        | some ia =>
          simp only [attackInsert, if_neg hv, hap]
          simp [dModify_ne_nil [] (fun g => dUpsert g ia.2 kv.2) acc ia.1,
            hv, hap]
    rw [hstep]
    simp only [List.forall_mem_cons]
    tauto

/-- The attacks payload is omitted exactly when no cell of the row is a
non-empty attacks_index_attribute column. -/
theorem collectAttacks_eq (row : List (String × String)) :
    collectAttacks row = row.foldl attackInsert [] :=
  rfl

theorem parse_attacks_eq_none (row : List (String × String)) :
    parse_attacks row = none ↔
      ∀ kv ∈ row, kv.2 = "" ∨ attackPart kv.1 = none := by
  unfold parse_attacks
  rcases hc : collectAttacks row with _ | ⟨g, gs⟩
  · rw [collectAttacks_eq] at hc
    simpa [hc] using ((foldl_attackInsert_eq_nil row []).mp hc).2
  · have hne : ¬row.foldl attackInsert [] = [] := by
      rw [← collectAttacks_eq, hc]; simp
    constructor
    · intro h; exact absurd h (by simp)
    · intro h
      exact absurd ((foldl_attackInsert_eq_nil row []).mpr ⟨rfl, h⟩) hne

/-- C2 counterexample: updating an existing card with a row that has no
attacks_ column at all (so the attacks cells are absent) does not leave
the stored attacks field unchanged: importer.py line 170 assigns
card.attacks = _parse_attacks(payload) unconditionally, which erases the
previously stored attacks value to null. -/
theorem c2_attacks_erased_counterexample :
    (∀ kv ∈ rowRarity, startsList "attacks_".data kv.1.data = false) ∧
    (sGet ("base", "4") stWithAttacks.tx).map CardRec.attacks =
      some (some "[\x7b\"name\": \"Scratch\"\x7d]") ∧
    (sGet ("base", "4") (processRow envPlain 1 rowRarity stWithAttacks).tx).map
        CardRec.attacks = some none ∧
    (processRow envPlain 1 rowRarity stWithAttacks).updated = 1 :=
  ⟨by decide, rfl, rfl, rfl⟩

/-- C2 amended: for a row that updates an existing card (and whose flush
succeeds), every stored field whose cells are absent or blank in the row
is left unchanged — EXCEPT the attacks field, which is recomputed from the
row's attacks_ columns on every processed row (and is in particular set to
null, erasing the stored value, when the row has no non-empty attacks_
cell), and the local image path, which may be re-resolved from the image
directory even without a cell.  The conjuncts below state the updated
stored card, the updated counter, the per-field frame facts under the
corresponding absent-or-blank hypotheses, and the two attacks facts. -/
theorem c2_partial_update_amended (env : Env) (i : Nat) (row : Row)
    (st : ImpState) (s n : String) (c : CardRec)
    (hkey : keyOf (prepare_payload row) = some (s, n))
    (hexist : sGet (s, n) st.tx = some c)
    (hblow : env.blow i = false) :
    sGet (s, n) (processRow env i row st).tx =
      some (applyFields env (prepare_payload row) s n c) ∧
    (processRow env i row st).updated = st.updated + 1 ∧
    (rowLacks row "name" →
      (applyFields env (prepare_payload row) s n c).name = c.name) ∧
    (rowLacks row "hp" → rowLacks row "hp_str" →
      (applyFields env (prepare_payload row) s n c).hp = c.hp) ∧
    (rowLacks row "types" → rowLacks row "type" →
      (applyFields env (prepare_payload row) s n c).types = c.types) ∧
    (rowLacks row "rarity" →
      (applyFields env (prepare_payload row) s n c).rarity = c.rarity) ∧
    (rowLacks row "set_name" → rowLacks row "set" →
      (applyFields env (prepare_payload row) s n c).set_name = c.set_name) ∧
    (rowLacks row "artist" →
      (applyFields env (prepare_payload row) s n c).artist = c.artist) ∧
    (rowLacks row "ability_name" → rowLacks row "abilities_0_name" →
      (applyFields env (prepare_payload row) s n c).ability_name =
        c.ability_name) ∧
    (rowLacks row "ability_text" → rowLacks row "abilities_0_text" →
      (applyFields env (prepare_payload row) s n c).ability_text =
        c.ability_text) ∧
    (rowLacks row "weaknesses" →
      (applyFields env (prepare_payload row) s n c).weaknesses =
        c.weaknesses) ∧
    (rowLacks row "resistances" →
      (applyFields env (prepare_payload row) s n c).resistances =
        c.resistances) ∧
    (rowLacks row "retreat_cost" → rowLacks row "retreat" →
      (applyFields env (prepare_payload row) s n c).retreat_cost =
        c.retreat_cost) ∧
    (rowLacks row "image_url" → rowLacks row "images_small" →
      (applyFields env (prepare_payload row) s n c).image_url =
        c.image_url) ∧
    (applyFields env (prepare_payload row) s n c).set_id = c.set_id ∧
    (applyFields env (prepare_payload row) s n c).number = c.number ∧
    (rowLacks row "image_path" →
      env.resolveImg (dGet "Imagem" (prepare_payload row) <|>
        dGet "imagem" (prepare_payload row)) = none →
      env.guessImg s n = none →
      (applyFields env (prepare_payload row) s n c).image_path =
        c.image_path) ∧
    (applyFields env (prepare_payload row) s n c).attacks =
      parse_attacks (prepare_payload row) ∧
    ((∀ kv ∈ prepare_payload row, kv.2 = "" ∨ attackPart kv.1 = none) →
      (applyFields env (prepare_payload row) s n c).attacks = none) := by
  have hmain : processRow env i row st =
      { st with
          tx := sPut (s, n) (applyFields env (prepare_payload row) s n c) st.tx,
          updated := st.updated + 1 } := by
    simp [processRow, hkey, hexist, hblow]
  refine ⟨?_, ?_, ?_, ?_, ?_, ?_, ?_, ?_, ?_, ?_, ?_, ?_, ?_, ?_, ?_, ?_, ?_, ?_, ?_⟩
  · rw [hmain]; simp [sGet_sPut]
  · rw [hmain]
  · intro h1
    have d1 := (dGet_prepare_none row "name").mpr h1
    simp [applyFields, fieldPut, d1]
  · intro h1 h2
    have d1 := (dGet_prepare_none row "hp").mpr h1
    have d2 := (dGet_prepare_none row "hp_str").mpr h2
    simp [applyFields, fieldPut, d1, d2]
  · intro h1 h2
    have d1 := (dGet_prepare_none row "types").mpr h1
    have d2 := (dGet_prepare_none row "type").mpr h2
    simp [applyFields, fieldPut, d1, d2]
  · intro h1
    have d1 := (dGet_prepare_none row "rarity").mpr h1
    simp [applyFields, fieldPut, d1]
  · intro h1 h2
    have d1 := (dGet_prepare_none row "set_name").mpr h1
    have d2 := (dGet_prepare_none row "set").mpr h2
    simp [applyFields, fieldPut, d1, d2]
  · intro h1
    have d1 := (dGet_prepare_none row "artist").mpr h1
    simp [applyFields, fieldPut, d1]
  · intro h1 h2
    have d1 := (dGet_prepare_none row "ability_name").mpr h1
    have d2 := (dGet_prepare_none row "abilities_0_name").mpr h2
    simp [applyFields, fieldPut, d1, d2]
  · intro h1 h2
    have d1 := (dGet_prepare_none row "ability_text").mpr h1
    have d2 := (dGet_prepare_none row "abilities_0_text").mpr h2
    simp [applyFields, fieldPut, d1, d2]
  · intro h1
    have d1 := (dGet_prepare_none row "weaknesses").mpr h1
    simp [applyFields, fieldPut, d1]
  · intro h1
    have d1 := (dGet_prepare_none row "resistances").mpr h1
    simp [applyFields, fieldPut, d1]
  · intro h1 h2
    have d1 := (dGet_prepare_none row "retreat_cost").mpr h1
    have d2 := (dGet_prepare_none row "retreat").mpr h2
    simp [applyFields, fieldPut, d1, d2]
  · intro h1 h2
    have d1 := (dGet_prepare_none row "image_url").mpr h1
    have d2 := (dGet_prepare_none row "images_small").mpr h2
    simp [applyFields, fieldPut, d1, d2]
  · simp [applyFields]
  · simp [applyFields]
  · intro h1 h2 h3
    have d1 := (dGet_prepare_none row "image_path").mpr h1
    simp [applyFields, fieldPut, localImage, otruthy, d1, h2, h3]
  · simp [applyFields]
  · intro h
    simp [applyFields, (parse_attacks_eq_none (prepare_payload row)).mpr h]

theorem c2_partial_update_amended_witness :
    keyOf (prepare_payload rowRarity) = some ("base", "4") ∧
    sGet ("base", "4") stWithAttacks.tx = some cardWithAttacks ∧
    envPlain.blow 1 = false ∧
    rowLacks rowRarity "name" ∧
    (applyFields envPlain (prepare_payload rowRarity) "base" "4"
        cardWithAttacks).name = cardWithAttacks.name ∧
    sGet ("base", "4") (processRow envPlain 1 rowRarity stWithAttacks).tx =
      some (applyFields envPlain (prepare_payload rowRarity) "base" "4"
        cardWithAttacks) := by
  have H := c2_partial_update_amended envPlain 1 rowRarity stWithAttacks
    "base" "4" cardWithAttacks (by decide) rfl rfl
  exact ⟨by decide, rfl, rfl, by decide, H.2.2.1 (by decide), H.1⟩

/-! ### C6: ordering and contents of the attack groups -/

theorem listLexLe_total (a b : List Char) :
    listLexLe a b = true ∨ listLexLe b a = true := by
  induction a generalizing b with
  | nil => exact Or.inl rfl
  | cons x xs ih =>
    cases b with
    | nil => exact Or.inr rfl
    | cons y ys =>
      rcases Nat.lt_trichotomy x.toNat y.toNat with h | h | h
      · left; simp [listLexLe, h]
      · rcases ih ys with h2 | h2
        · left; simp [listLexLe, h, h2]
        · right; simp [listLexLe, h.symm, h2]
      · right; simp [listLexLe, h]

theorem listLexLe_trans (a b c : List Char) (h1 : listLexLe a b = true)
    (h2 : listLexLe b c = true) : listLexLe a c = true := by
  induction a generalizing b c with
  | nil => rfl
  | cons x xs ih =>
    cases b with
    | nil => simp [listLexLe] at h1
    | cons y ys =>
      cases c with
      | nil => simp [listLexLe] at h2
      | cons z zs =>
        simp only [listLexLe] at h1 h2 ⊢
        rcases Nat.lt_trichotomy x.toNat y.toNat with hxy | hxy | hxy
        · rcases Nat.lt_trichotomy y.toNat z.toNat with hyz | hyz | hyz
          · simp [show x.toNat < z.toNat by omega]
          · simp [show x.toNat < z.toNat by omega]
          · rw [if_neg (by omega), if_pos (by omega)] at h2
            exact absurd h2 (by simp)
        · rw [if_neg (by omega), if_neg (by omega)] at h1
          rcases Nat.lt_trichotomy y.toNat z.toNat with hyz | hyz | hyz
          · simp [show x.toNat < z.toNat by omega]
          · rw [if_neg (by omega), if_neg (by omega)] at h2
            rw [if_neg (by omega), if_neg (by omega)]
            exact ih ys zs h1 h2
          · rw [if_neg (by omega), if_pos (by omega)] at h2
            exact absurd h2 (by simp)
        · rw [if_neg (by omega), if_pos (by omega)] at h1
          exact absurd h1 (by simp)

instance : IsTotal (String × List (String × String)) keyLe :=
  ⟨fun p q => by
    unfold keyLe pyStrLe
    exact listLexLe_total p.1.data q.1.data⟩

instance : IsTrans (String × List (String × String)) keyLe :=
  ⟨fun p q r h1 h2 => listLexLe_trans p.1.data q.1.data r.1.data h1 h2⟩

theorem dGet_eq_none_iff {β : Type} (k : String) (d : List (String × β)) :
    dGet k d = none ↔ k ∉ d.map Prod.fst := by
  induction d with
  | nil => simp [dGet]
  | cons kv rest ih =>
    obtain ⟨k0, v0⟩ := kv
    by_cases h : k0 = k
    · subst h; simp [dGet]
    · have h2 : ¬k = k0 := fun hh => h hh.symm
      simp only [dGet, if_neg h, List.map_cons, List.mem_cons, ih]
      tauto

theorem dGet_dModify {β : Type} (dflt : β) (f : β → β)
    (d : List (String × β)) (k0 k : String) :
    dGet k (dModify dflt f d k0) =
      if k0 = k then some (f ((dGet k0 d).getD dflt)) else dGet k d := by
  induction d with
  | nil => simp [dModify, dGet]
  | cons kv rest ih =>
    obtain ⟨k1, v1⟩ := kv
    by_cases h1 : k1 = k0 <;> by_cases h2 : k1 = k <;>
      by_cases h3 : k0 = k <;> simp_all [dModify, dGet]

theorem map_fst_dModify {β : Type} (dflt : β) (f : β → β)
    (d : List (String × β)) (k : String) :
    (dModify dflt f d k).map Prod.fst =
      if k ∈ d.map Prod.fst then d.map Prod.fst else d.map Prod.fst ++ [k] := by
  induction d with
  | nil => simp [dModify]
  | cons kv rest ih =>
    obtain ⟨k0, v0⟩ := kv
    by_cases h : k0 = k
    · simp [dModify, h]
    · have h2 : ¬k = k0 := fun hh => h hh.symm
      simp only [dModify, if_neg h, List.map_cons, ih, List.mem_cons]
      by_cases hm : k ∈ rest.map Prod.fst
      · rw [if_pos hm, if_pos (Or.inr hm)]
      · rw [if_neg hm, if_neg ?hn]
        · simp
        case hn =>
          rintro (hh | hh)
          · exact h2 hh
          · exact hm hh

theorem attackInsert_keys_nodup (acc : List (String × List (String × String)))
    (kv : String × String) (h : (acc.map Prod.fst).Nodup) :
    ((attackInsert acc kv).map Prod.fst).Nodup := by
  by_cases hv : kv.2 = ""
  · simpa [attackInsert, hv]
  · cases hap : attackPart kv.1 with
    | none => simpa [attackInsert, hv, hap]
    | some ia =>
      simp only [attackInsert, if_neg hv, hap, map_fst_dModify]
      by_cases hm : ia.1 ∈ acc.map Prod.fst
      · simpa [hm]
      · simp [hm, List.nodup_append, h]

theorem collectAttacks_keys_nodup (row : List (String × String)) :
    ((collectAttacks row).map Prod.fst).Nodup := by
  rw [collectAttacks_eq]
  have main : ∀ acc, (List.map Prod.fst acc).Nodup →
      ((row.foldl attackInsert acc).map Prod.fst).Nodup := by
    induction row with
    | nil => intro acc h; simpa
    | cons kv rest ih =>
      intro acc h
      exact ih _ (attackInsert_keys_nodup acc kv h)
  exact main [] (by simp)

theorem mem_keys_attackInsert (acc : List (String × List (String × String)))
    (kv : String × String) (idx : String) :
    idx ∈ (attackInsert acc kv).map Prod.fst ↔
      idx ∈ acc.map Prod.fst ∨
        ∃ attr, kv.2 ≠ "" ∧ attackPart kv.1 = some (idx, attr) := by
  by_cases hv : kv.2 = ""
  · simp [attackInsert, hv]
  · cases hap : attackPart kv.1 with
    | none => simp [attackInsert, hv, hap]
    | some ia =>
      simp only [attackInsert, if_neg hv, hap, map_fst_dModify]
      by_cases hm : ia.1 ∈ acc.map Prod.fst <;>
        by_cases hi : ia.1 = idx <;>
          simp_all [eq_comm, Prod.ext_iff]

theorem mem_keys_collectAttacks (row : List (String × String)) (idx : String) :
    idx ∈ (collectAttacks row).map Prod.fst ↔
      ∃ kv ∈ row, ∃ attr, kv.2 ≠ "" ∧ attackPart kv.1 = some (idx, attr) := by
  rw [collectAttacks_eq]
  have main : ∀ acc, idx ∈ (row.foldl attackInsert acc).map Prod.fst ↔
      idx ∈ acc.map Prod.fst ∨
        ∃ kv ∈ row, ∃ attr, kv.2 ≠ "" ∧ attackPart kv.1 = some (idx, attr) := by
    induction row with
    | nil => intro acc; simp
    | cons kv rest ih =>
      intro acc
      rw [List.foldl_cons, ih, mem_keys_attackInsert]
      simp only [List.mem_cons]
      constructor
      · rintro ((h | h) | ⟨kv2, hkv2, h⟩)
        · exact Or.inl h
        · exact Or.inr ⟨kv, Or.inl rfl, h⟩
        · exact Or.inr ⟨kv2, Or.inr hkv2, h⟩
      · rintro (h | ⟨kv2, hkv2 | hkv2, h⟩)
        · exact Or.inl (Or.inl h)
        · exact Or.inl (Or.inr (hkv2 ▸ h))
        · exact Or.inr ⟨kv2, hkv2, h⟩
  simpa using main []

theorem orElse_assoc (a b c : Option String) :
    ((a <|> b) <|> c) = (a <|> (b <|> c)) := by
  cases a <;> rfl

theorem map_snd_or {α β : Type} (f : α → β) (x y : Option α) :
    Option.map f (x.or y) = (Option.map f x <|> Option.map f y) := by
  cases x <;> rfl

theorem find?_isAtkCell_singleton (idx attr : String) (kv : String × String) :
    List.find? (isAtkCell idx attr) [kv] =
      (if attackPart kv.1 = some (idx, attr) ∧ kv.2 ≠ "" then some kv
       else none) := by
  by_cases hA : attackPart kv.1 = some (idx, attr) <;>
    by_cases hB : kv.2 = "" <;> simp [List.find?, isAtkCell, hA, hB]

theorem content_attackInsert (acc : List (String × List (String × String)))
    (kv : String × String) (idx attr : String) :
    dGet attr ((dGet idx (attackInsert acc kv)).getD []) =
      ((if attackPart kv.1 = some (idx, attr) ∧ kv.2 ≠ "" then some kv.2
        else none) <|> dGet attr ((dGet idx acc).getD [])) := by
  by_cases hv : kv.2 = ""
  · simp [attackInsert, hv]
  · cases hap : attackPart kv.1 with
    | none => simp [attackInsert, hv, hap]
    | some ia =>
      simp only [attackInsert, if_neg hv, hap, dGet_dModify]
      by_cases hi : ia.1 = idx
      · subst hi
        rw [if_pos rfl]
        simp only [Option.getD_some, dGet_dUpsert]
        by_cases ha : ia.2 = attr
        · subst ha; simp [hv, Prod.ext_iff]
        · simp [ha, hv, Prod.ext_iff]
      · rw [if_neg hi]
        have : ¬(ia.1 = idx ∧ ia.2 = attr) := fun hh => hi hh.1
        simp [Prod.ext_iff, this, fun hh : (ia.1 = idx ∧ ia.2 = attr) => hi hh.1]

theorem content_collectAttacks (row : List (String × String))
    (idx attr : String) :
    dGet attr ((dGet idx (collectAttacks row)).getD []) =
      lastAttackVal row idx attr := by
  rw [collectAttacks_eq]
  have main : ∀ acc,
      dGet attr ((dGet idx (row.foldl attackInsert acc)).getD []) =
        (lastAttackVal row idx attr <|>
          dGet attr ((dGet idx acc).getD [])) := by
    induction row with
    | nil => intro acc; simp [lastAttackVal]
    | cons kv rest ih =>
      intro acc
      rw [List.foldl_cons, ih, content_attackInsert]
      have hlast : lastAttackVal (kv :: rest) idx attr =
          (lastAttackVal rest idx attr <|>
            (if attackPart kv.1 = some (idx, attr) ∧ kv.2 ≠ "" then some kv.2
             else none)) := by
        simp only [lastAttackVal, List.reverse_cons, List.find?_append,
          find?_isAtkCell_singleton, map_snd_or]
        by_cases hp : attackPart kv.1 = some (idx, attr) ∧ kv.2 ≠ "" <;>
          simp [hp]
      rw [hlast, orElse_assoc]
  have hmain := main []
  simpa [dGet] using hmain

/-- C6 counterexample: with attack columns indexed "2" then "10" (in that
insertion order), the output array is ordered lexicographically on the
index token — "10" before "2" — which does NOT match the insertion order
of the distinct indices, refuting the claim's parenthetical. -/
theorem c6_order_counterexample :
    parse_attacks [("attacks_2_name", "A"), ("attacks_10_name", "B")] =
      some "[\x7b\"name\": \"B\"\x7d, \x7b\"name\": \"A\"\x7d]" ∧
    (collectAttacks [("attacks_2_name", "A"), ("attacks_10_name", "B")]).map
        Prod.fst = ["2", "10"] ∧
    (List.insertionSort keyLe (collectAttacks
        [("attacks_2_name", "A"), ("attacks_10_name", "B")])).map Prod.fst =
      ["10", "2"] ∧
    (["10", "2"] : List String) ≠ ["2", "10"] :=
  ⟨rfl, rfl, rfl, by decide⟩

/-- C6 amended: the attacks_ columns with non-empty values are grouped by
index token into one object per index holding exactly that index's
non-empty attributes (the last cell winning for a repeated attribute); the
stored value is the JSON array of these objects ordered lexicographically
on the index token — an order that can differ from the insertion order of
the distinct indices (for example "10" sorts before "2") — and the result
is entirely omitted when no group is non-empty. -/
theorem c6_attacks_grouping_amended (row : List (String × String)) :
    (parse_attacks row = none ↔
      ∀ kv ∈ row, kv.2 = "" ∨ attackPart kv.1 = none) ∧
    (collectAttacks row ≠ [] → parse_attacks row =
      some ⟨dumpsObjListChars
        ((List.insertionSort keyLe (collectAttacks row)).map Prod.snd)⟩) ∧
    List.Perm (List.insertionSort keyLe (collectAttacks row))
      (collectAttacks row) ∧
    List.Pairwise (fun a b => pyStrLe a b = true)
      ((List.insertionSort keyLe (collectAttacks row)).map Prod.fst) ∧
    ((List.insertionSort keyLe (collectAttacks row)).map Prod.fst).Nodup ∧
    (∀ idx, idx ∈ (collectAttacks row).map Prod.fst ↔
      ∃ kv ∈ row, ∃ attr, kv.2 ≠ "" ∧ attackPart kv.1 = some (idx, attr)) ∧
    (∀ idx attr, dGet attr ((dGet idx (collectAttacks row)).getD []) =
      lastAttackVal row idx attr) := by
  refine ⟨parse_attacks_eq_none row, ?_, List.perm_insertionSort _ _, ?_, ?_,
    mem_keys_collectAttacks row, content_collectAttacks row⟩
  · intro h
    simp [parse_attacks, List.isEmpty_iff, h]
  · have hs := List.sorted_insertionSort keyLe (collectAttacks row)
    rw [List.Sorted] at hs
    exact (List.pairwise_map).mpr hs
  · have hperm := (List.perm_insertionSort keyLe (collectAttacks row)).map
      Prod.fst
    exact hperm.symm.nodup (collectAttacks_keys_nodup row)

theorem c6_attacks_grouping_amended_witness :
    collectAttacks [("attacks_0_name", "Scratch"), ("attacks_0_damage", "10"),
        ("attacks_1_name", "Ember")] ≠ [] ∧
    parse_attacks [("attacks_0_name", "Scratch"), ("attacks_0_damage", "10"),
        ("attacks_1_name", "Ember")] =
      some ⟨dumpsObjListChars ((List.insertionSort keyLe (collectAttacks
        [("attacks_0_name", "Scratch"), ("attacks_0_damage", "10"),
         ("attacks_1_name", "Ember")])).map Prod.snd)⟩ ∧
    parse_attacks [("attacks_0_name", "Scratch"), ("attacks_0_damage", "10"),
        ("attacks_1_name", "Ember")] =
      some "[\x7b\"name\": \"Scratch\", \"damage\": \"10\"\x7d, \x7b\"name\": \"Ember\"\x7d]" :=
  ⟨by decide,
   (c6_attacks_grouping_amended [("attacks_0_name", "Scratch"),
      ("attacks_0_damage", "10"), ("attacks_1_name", "Ember")]).2.1
     (by decide),
   rfl⟩

/-! ### C3: the Latin-1 retry of _open_csv can never trigger -/

/-- C3: when decoding the file under the detected encoding fails,
the importer raises the decode error instead of retrying with Latin-1, even
though the Latin-1 decode of the same bytes always succeeds.  The
except UnicodeDecodeError handler of _open_csv (importer.py lines 79-81)
is dead code: Python's open() defers decoding to read time, so the open
call it guards never raises UnicodeDecodeError (third conjunct), and the
failure surfaces later, in _prepare_reader's sample read or during row
iteration, where nothing catches it. -/
theorem c3_no_latin1_retry (io : IOEnv) (env : Env) (path : String)
    (store : Store) (bytes : List Nat)
    (hfs : io.fs path = some bytes)
    (hdec : decodeBytes (io.detect (bytes.take 4096)) bytes = none) :
    import_csv io env path store = .error .decodeError ∧
    (decodeBytes .latin1 bytes).isSome = true ∧
    ∀ enc, openCsvHandle bytes enc = ⟨bytes, enc⟩ := by
  refine ⟨?_, rfl, fun enc => rfl⟩
  unfold import_csv
  rw [hfs]
  show (match decodeBytes (io.detect (bytes.take 4096)) bytes with
        | none => Except.error ImpError.decodeError
        | some chars =>
          Except.ok (commitFinal (runRows env 1 (io.reader chars)
            (initState store)))) = Except.error ImpError.decodeError
  rw [hdec]

theorem decode_latin1File_ascii_fails :
    decodeBytes .ascii latin1File = none := by
  have hmem : (233 : Nat) ∈ latin1File :=
    List.mem_append_right _ (List.mem_singleton.mpr rfl)
  have hall : latin1File.all (fun b => b % 256 < 128) = false := by
    rw [List.all_eq_false]
    exact ⟨233, hmem, by decide⟩
  simp [decodeBytes, hall]

theorem c3_no_latin1_retry_witness :
    (⟨fun _ => some latin1File, fun _ => .ascii, fun _ => []⟩ : IOEnv).fs
        "latin1.csv" = some latin1File ∧
    decodeBytes
        ((⟨fun _ => some latin1File, fun _ => .ascii, fun _ => []⟩ :
          IOEnv).detect (latin1File.take 4096)) latin1File = none ∧
    (import_csv ⟨fun _ => some latin1File, fun _ => .ascii, fun _ => []⟩
        envPlain "latin1.csv" [] = .error .decodeError ∧
     (decodeBytes .latin1 latin1File).isSome = true ∧
     ∀ enc, openCsvHandle latin1File enc = ⟨latin1File, enc⟩) :=
  ⟨rfl, decode_latin1File_ascii_fails,
   c3_no_latin1_retry ⟨fun _ => some latin1File, fun _ => .ascii, fun _ => []⟩
     envPlain "latin1.csv" [] latin1File rfl decode_latin1File_ascii_fails⟩

/-! ### C8: re-importing the same file -/

theorem processRow_tx_mono (env : Env) (i : Nat) (r : Row) (st : ImpState)
    (k : String × String) (hb : env.blow i = false)
    (h : (sGet k st.tx).isSome = true) :
    (sGet k (processRow env i r st).tx).isSome = true := by
  simp only [processRow]
  rcases hkey : keyOf (prepare_payload r) with _ | ⟨s, n⟩
  · simpa using h
  · rcases hex : sGet (s, n) st.tx with _ | c
    · rcases hname : dGet "name" (prepare_payload r) with _ | v
      · simpa [hex, hname] using h
      · by_cases hk : (s, n) = k
        · subst hk
          simp [hex, hname, hb, sGet_sPut]
        · simpa [hex, hname, hb, sGet_sPut, hk] using h
    · by_cases hk : (s, n) = k
      · subst hk
        simp [hex, hb, sGet_sPut]
      · simpa [hex, hb, sGet_sPut, hk] using h

theorem processRow_establish (env : Env) (i : Nat) (r : Row) (st : ImpState)
    (k : String × String) (hb : env.blow i = false)
    (hkey : keyOf (prepare_payload r) = some k)
    (h : (dGet "name" (prepare_payload r)).isSome = true ∨
      (sGet k st.tx).isSome = true) :
    (sGet k (processRow env i r st).tx).isSome = true := by
  obtain ⟨s, n⟩ := k
  simp only [processRow, hkey]
  rcases hex : sGet (s, n) st.tx with _ | c
  · rcases hname : dGet "name" (prepare_payload r) with _ | v
    · rcases h with h | h
      · rw [hname] at h; exact absurd h (by simp)
      · rw [hex] at h; exact absurd h (by simp)
    · simp [hb, sGet_sPut]
  · simp [hb, sGet_sPut]

theorem runRows_tx_mono (env : Env) (rows : List Row)
    (hb : ∀ j, env.blow j = false) :
    ∀ (i : Nat) (st : ImpState) (k : String × String),
      (sGet k st.tx).isSome = true →
      (sGet k (runRows env i rows st).tx).isSome = true := by
  induction rows with
  | nil => intro i st k h; exact h
  | cons r rs ih =>
    intro i st k h
    rw [runRows_cons]
    exact ih (i + 1) _ k (processRow_tx_mono env i r st k (hb i) h)

theorem runRows_establish (env : Env) (rows : List Row)
    (hb : ∀ j, env.blow j = false) :
    ∀ (i : Nat) (st : ImpState) (r : Row) (k : String × String), r ∈ rows →
      keyOf (prepare_payload r) = some k →
      (dGet "name" (prepare_payload r)).isSome = true →
      (sGet k (runRows env i rows st).tx).isSome = true := by
  induction rows with
  | nil => intro i st r k h; exact absurd h (List.not_mem_nil r)
  | cons r0 rs ih =>
    intro i st r k hmem hkey hname
    rw [runRows_cons]
    rcases List.mem_cons.mp hmem with rfl | hmem2
    · exact runRows_tx_mono env rs hb (i + 1) _ k
        (processRow_establish env i r st k (hb i) hkey (Or.inl hname))
    · exact ih (i + 1) _ r k hmem2 hkey hname

theorem processRow_created_const (env : Env) (i : Nat) (r : Row)
    (st : ImpState) (hb : env.blow i = false)
    (h : ∀ k, keyOf (prepare_payload r) = some k →
      (dGet "name" (prepare_payload r)).isSome = true →
      (sGet k st.tx).isSome = true) :
    (processRow env i r st).created = st.created := by
  simp only [processRow]
  rcases hkey : keyOf (prepare_payload r) with _ | ⟨s, n⟩
  · rfl
  · rcases hex : sGet (s, n) st.tx with _ | c
    · rcases hname : dGet "name" (prepare_payload r) with _ | v
      · simp [hex, hname]
      · have := h (s, n) hkey (by rw [hname]; rfl)
        rw [hex] at this
        exact absurd this (by simp)
    · simp [hb, hex]

theorem runRows_created_const (env : Env) (rows : List Row)
    (hb : ∀ j, env.blow j = false) :
    ∀ (i : Nat) (st : ImpState),
      (∀ r ∈ rows, ∀ k, keyOf (prepare_payload r) = some k →
        (dGet "name" (prepare_payload r)).isSome = true →
        (sGet k st.tx).isSome = true) →
      (runRows env i rows st).created = st.created := by
  induction rows with
  | nil => intro i st _; rfl
  | cons r rs ih =>
    intro i st h
    rw [runRows_cons]
    rw [ih (i + 1) (processRow env i r st) ?tail]
    · exact processRow_created_const env i r st (hb i)
        (h r (List.mem_cons_self r rs))
    case tail =>
      intro r2 hmem k hkey hname
      exact processRow_tx_mono env i r st k (hb i)
        (h r2 (List.mem_cons_of_mem r hmem) k hkey hname)

/-- C8: re-importing the same file against the store produced by a first
run yields created == 0 on the second run, and updated equals the
file's row count (which equals created + updated + skipped of either run)
minus the rows skipped on the second run. -/
theorem c8_reimport_idempotent (io : IOEnv) (env : Env) (path : String)
    (store : Store) (st1 st2 : ImpState)
    (hb : ∀ j, env.blow j = false)
    (h1 : import_csv io env path store = .ok st1)
    (h2 : import_csv io env path st1.committed = .ok st2) :
    st2.created = 0 ∧
    st2.updated + st2.skipped = st1.created + st1.updated + st1.skipped ∧
    st2.updated = (st1.created + st1.updated + st1.skipped) - st2.skipped := by
  obtain ⟨b1, chars1, hfs1, hdec1, hst1⟩ := import_csv_ok io env path store st1 h1
  obtain ⟨b2, chars2, hfs2, hdec2, hst2⟩ :=
    import_csv_ok io env path st1.committed st2 h2
  have hbeq : b2 = b1 :=
    (Option.some_injective _ (hfs1.symm.trans hfs2)).symm
  subst hbeq
  have hch : chars1 = chars2 :=
    Option.some_injective _ (hdec1.symm.trans hdec2)
  rw [← hch] at hst2
  have hcom : st1.committed =
      (runRows env 1 (io.reader chars1) (initState store)).tx := by
    rw [hst1]; rfl
  have hkeys : ∀ r ∈ io.reader chars1, ∀ k,
      keyOf (prepare_payload r) = some k →
      (dGet "name" (prepare_payload r)).isSome = true →
      (sGet k (initState st1.committed).tx).isSome = true := by
    intro r hmem k hkey hname
    show (sGet k st1.committed).isSome = true
    rw [hcom]
    exact runRows_establish env (io.reader chars1) hb 1 (initState store)
      r k hmem hkey hname
  have hcreated : st2.created = 0 := by
    rw [hst2]
    show (runRows env 1 (io.reader chars1)
      (initState st1.committed)).created = 0
    rw [runRows_created_const env (io.reader chars1) hb 1
      (initState st1.committed) hkeys]
    rfl
  have htot1 : st1.created + st1.updated + st1.skipped =
      (io.reader chars1).length := by
    rw [hst1]
    simpa [commitFinal, initState] using
      runRows_total env (io.reader chars1) 1 (initState store)
  have htot2 : st2.created + st2.updated + st2.skipped =
      (io.reader chars1).length := by
    rw [hst2]
    simpa [commitFinal, initState] using
      runRows_total env (io.reader chars1) 1 (initState st1.committed)
  refine ⟨hcreated, ?_, ?_⟩ <;> omega

theorem c8_reimport_idempotent_witness :
    (∀ j, envPlain.blow j = false) ∧
    import_csv ioTwoRows envPlain "cards.csv" [] =
      .ok (commitFinal (runRows envPlain 1 [rowPika, rowChar] (initState []))) ∧
    ((commitFinal (runRows envPlain 1 [rowPika, rowChar]
        (initState
          (commitFinal (runRows envPlain 1 [rowPika, rowChar]
            (initState []))).committed))).created = 0 ∧
     (commitFinal (runRows envPlain 1 [rowPika, rowChar]
        (initState
          (commitFinal (runRows envPlain 1 [rowPika, rowChar]
            (initState []))).committed))).updated +
       (commitFinal (runRows envPlain 1 [rowPika, rowChar]
        (initState
          (commitFinal (runRows envPlain 1 [rowPika, rowChar]
            (initState []))).committed))).skipped =
      (commitFinal (runRows envPlain 1 [rowPika, rowChar]
          (initState []))).created +
        (commitFinal (runRows envPlain 1 [rowPika, rowChar]
          (initState []))).updated +
        (commitFinal (runRows envPlain 1 [rowPika, rowChar]
          (initState []))).skipped ∧
     (commitFinal (runRows envPlain 1 [rowPika, rowChar]
        (initState
          (commitFinal (runRows envPlain 1 [rowPika, rowChar]
            (initState []))).committed))).updated =
      ((commitFinal (runRows envPlain 1 [rowPika, rowChar]
          (initState []))).created +
        (commitFinal (runRows envPlain 1 [rowPika, rowChar]
          (initState []))).updated +
        (commitFinal (runRows envPlain 1 [rowPika, rowChar]
          (initState []))).skipped) -
        (commitFinal (runRows envPlain 1 [rowPika, rowChar]
          (initState
            (commitFinal (runRows envPlain 1 [rowPika, rowChar]
              (initState []))).committed))).skipped) :=
  ⟨fun _ => rfl, rfl,
   c8_reimport_idempotent ioTwoRows envPlain "cards.csv" [] _ _
     (fun _ => rfl) rfl rfl⟩

/-! ### C7: pipe-delimited and JSON-array inputs normalize identically -/

theorem pyStripChars_eq_rdrop (l : List Char) :
    pyStripChars l = List.rdropWhile pySpace (l.dropWhile pySpace) :=
  rfl

theorem pyStripChars_idem (l : List Char) :
    pyStripChars (pyStripChars l) = pyStripChars l := by
  rw [pyStripChars_eq_rdrop, pyStripChars_eq_rdrop]
  have hdm : (l.dropWhile pySpace).dropWhile pySpace = l.dropWhile pySpace :=
    List.dropWhile_idempotent pySpace l
  have h1 : (List.rdropWhile pySpace (l.dropWhile pySpace)).dropWhile pySpace =
      List.rdropWhile pySpace (l.dropWhile pySpace) := by
    cases hA : List.rdropWhile pySpace (l.dropWhile pySpace) with
    | nil => rfl
    | cons a as =>
      obtain ⟨t, ht⟩ := List.rdropWhile_prefix pySpace (l.dropWhile pySpace)
      rw [hA] at ht
      have hpa : pySpace a = false := by
        by_cases hp : pySpace a = true
        · exfalso
          rw [← ht, List.cons_append, List.dropWhile_cons, if_pos hp] at hdm
          have hle := (List.dropWhile_sublist (l := as ++ t) pySpace).length_le
          have := congrArg List.length hdm
          simp only [List.length_cons] at this
          omega
        · simpa using hp
      rw [List.dropWhile_cons, if_neg (by simp [hpa])]
  rw [h1, List.rdropWhile_idempotent]

theorem pyStrip_idem (s : String) : pyStrip (pyStrip s) = pyStrip s :=
  congrArg (fun l => (⟨l⟩ : String)) (pyStripChars_idem s.data)

theorem mem_pipeTokens (v t : String) (h : t ∈ pipeTokens v) :
    pyStrip t = t ∧ t ≠ "" := by
  unfold pipeTokens at h
  have h2 := List.of_mem_filter h
  have h1 := List.mem_of_mem_filter h
  obtain ⟨c, hc, rfl⟩ := List.mem_map.mp h1
  exact ⟨pyStrip_idem _, by simpa using h2⟩

theorem parse_list_pipe (s : String) (hne : pyStrip s ≠ "")
    (hfail : jsonParse (pyStrip s) = none) :
    parse_list (some s) = some (pipeTokens (pyStrip s)) := by
  simp only [parse_list, if_neg hne, hfail]
  congr 1
  apply List.filter_eq_self.mpr
  intro t ht
  have hmem := mem_pipeTokens _ t ht
  simp [hmem.1, hmem.2]

theorem hexVal_hexDigit (n : Nat) (h : n < 16) :
    hexVal (hexDigit n) = some n := by
  revert h
  revert n
  decide

theorem parseJStrBody_enc (t rest : List Char) :
    parseJStrBody (encBody t ++ '"' :: rest) = some (t, rest) := by
  induction t with
  | nil =>
    show parseJStrBody ('"' :: rest) = some ([], rest)
    rw [parseJStrBody.eq_def]
    simp
  | cons c cs ih =>
    have hstep : encBody (c :: cs) = escChar c ++ encBody cs := rfl
    rw [hstep, List.append_assoc]
    by_cases h1 : c = '"'
    · subst h1; simp [escChar, parseJStrBody, escCode, ih]
    · by_cases h2 : c = '\\'
      · subst h2; simp [escChar, parseJStrBody, escCode, ih]
      · by_cases h3 : c = '\x08'
        · subst h3; simp [escChar, parseJStrBody, escCode, ih]
        · by_cases h4 : c = '\t'
          · subst h4; simp [escChar, parseJStrBody, escCode, ih]
          · by_cases h5 : c = '\n'
            · subst h5; simp [escChar, parseJStrBody, escCode, ih]
            · by_cases h6 : c = '\x0c'
              · subst h6; simp [escChar, parseJStrBody, escCode, ih]
              · by_cases h7 : c = '\r'
                · subst h7; simp [escChar, parseJStrBody, escCode, ih]
                · by_cases h8 : c.toNat < 32
                  · have e1 : hexVal '0' = some 0 := by decide
                    have e2 : hexVal (hexDigit (c.toNat / 16)) =
                        some (c.toNat / 16) :=
                      hexVal_hexDigit _ (by omega)
                    have e3 : hexVal (hexDigit (c.toNat % 16)) =
                        some (c.toNat % 16) :=
                      hexVal_hexDigit _ (by omega)
                    have e4 : c.toNat / 16 * 16 + c.toNat % 16 = c.toNat := by
                      omega
                    simp [escChar, h1, h2, h3, h4, h5, h6, h7, h8,
                      parseJStrBody, e1, e2, e3, e4, ih]
                  · have hesc : escChar c = [c] := by
                      simp [escChar, h1, h2, h3, h4, h5, h6, h7, h8]
                    rw [hesc, List.singleton_append, parseJStrBody.eq_def]
                    simp [h1, h2, h8, ih]

theorem skipWs_cons_of_not_ws (c : Char) (l : List Char)
    (h : jsonWs c = false) : skipWs (c :: l) = c :: l := by
  simp [skipWs, List.dropWhile_cons, h]

theorem parseVal_encStr (fuel : Nat) (s : String) (rest : List Char) :
    parseVal (fuel + 1) (encStr s ++ rest) = some (.jstr s, rest) := by
  have hshape : encStr s ++ rest = '"' :: (encBody s.data ++ '"' :: rest) := by
    simp [encStr]
  rw [hshape, parseVal.eq_def]
  simp [skipWs_cons_of_not_ws '"' _ (by decide), parseJStrBody_enc]

theorem parseVal_cons_space (fuel : Nat) (l : List Char) :
    parseVal (fuel + 1) (' ' :: l) = parseVal (fuel + 1) l := by
  have h : skipWs (' ' :: l) = skipWs l := by
    simp [skipWs, List.dropWhile_cons, jsonWs]
  conv_lhs => rw [parseVal.eq_def]
  conv_rhs => rw [parseVal.eq_def]
  simp only [h]

theorem parseElems_cons_space (fuel k : Nat) (l : List Char) :
    parseElems (parseVal (fuel + 1)) (k + 1) (' ' :: l) =
      parseElems (parseVal (fuel + 1)) (k + 1) l := by
  conv_lhs => rw [parseElems.eq_def]
  conv_rhs => rw [parseElems.eq_def]
  simp only [parseVal_cons_space]

theorem parseElems_enc (fuel : Nat) :
    ∀ (ts : List String) (k : Nat) (rest : List Char), ts ≠ [] →
      ts.length ≤ k →
      parseElems (parseVal (fuel + 1)) k
        (joinSep [',', ' '] (ts.map encStr) ++ ']' :: rest) =
      some (ts.map JVal.jstr, rest) := by
  intro ts
  induction ts with
  | nil => intro k rest h; exact absurd rfl h
  | cons t ts2 ih =>
    intro k rest _ hlen
    cases k with
    | zero => simp at hlen
    | succ k1 =>
      cases ts2 with
      | nil =>
        have hj : joinSep [',', ' '] ([t].map encStr) ++ ']' :: rest =
            encStr t ++ ']' :: rest := rfl
        rw [hj, parseElems.eq_def]
        simp [parseVal_encStr, skipWs_cons_of_not_ws ']' _ (by decide)]
      | cons t2 ts3 =>
        have hj : joinSep [',', ' '] ((t :: t2 :: ts3).map encStr) ++
              ']' :: rest =
            encStr t ++ ',' :: ' ' ::
              (joinSep [',', ' '] ((t2 :: ts3).map encStr) ++ ']' :: rest) := by
          show (encStr t ++ [',', ' '] ++
            joinSep [',', ' '] ((t2 :: ts3).map encStr)) ++ ']' :: rest = _
          simp
        rw [hj, parseElems.eq_def]
        have hlen2 : (t2 :: ts3).length ≤ k1 := by
          simp only [List.length_cons] at hlen ⊢
          omega
        cases k1 with
        | zero => simp at hlen2
        | succ k2 =>
          have hspace := parseElems_cons_space fuel k2
            (joinSep [',', ' '] ((t2 :: ts3).map encStr) ++ ']' :: rest)
          simp only [parseVal_encStr,
            skipWs_cons_of_not_ws ',' _ (by decide), hspace,
            ih (k2 + 1) rest (by simp) hlen2]
          rfl

theorem encStr_length_ge (s : String) : 2 ≤ (encStr s).length := by
  simp [encStr]

theorem length_le_joinSep_enc (ts : List String) :
    ts.length ≤ (joinSep [',', ' '] (ts.map encStr)).length + 1 := by
  induction ts with
  | nil => simp [joinSep]
  | cons t ts2 ih =>
    cases ts2 with
    | nil =>
      have := encStr_length_ge t
      simp only [List.map_cons, List.map_nil, joinSep, List.length_cons,
        List.length_nil]
      omega
    | cons t2 ts3 =>
      have h1 := encStr_length_ge t
      have hj : joinSep [',', ' '] ((t :: t2 :: ts3).map encStr) =
          encStr t ++ [',', ' '] ++
            joinSep [',', ' '] ((t2 :: ts3).map encStr) := rfl
      rw [hj]
      simp only [List.length_cons, List.length_append] at ih ⊢
      omega

theorem parseVal_dumps (fuel : Nat) (ts : List String) (rest : List Char) :
    parseVal (fuel + 2) (dumpsStrListChars ts ++ rest) =
      some (.jarr (ts.map JVal.jstr), rest) := by
  have hshape : dumpsStrListChars ts ++ rest =
      '[' :: (joinSep [',', ' '] (ts.map encStr) ++ ']' :: rest) := by
    simp [dumpsStrListChars]
  rw [hshape]
  show parseVal (fuel + 1 + 1) _ = _
  rw [parseVal.eq_def]
  cases ts with
  | nil =>
    simp [skipWs_cons_of_not_ws '[' _ (by decide), joinSep,
      skipWs_cons_of_not_ws ']' _ (by decide)]
  | cons t ts2 =>
    have hhd : ∃ tail, joinSep [',', ' '] ((t :: ts2).map encStr) ++
        ']' :: rest = '"' :: tail := by
      cases ts2 with
      | nil => exact ⟨encBody t.data ++ '"' :: ']' :: rest, by simp [joinSep, encStr]⟩
      | cons t2 ts3 =>
        exact ⟨(encBody t.data ++ ['"'] ++ [',', ' '] ++
          joinSep [',', ' '] ((t2 :: ts3).map encStr)) ++ ']' :: rest, by
            simp [joinSep, encStr]⟩
    obtain ⟨tail, htail⟩ := hhd
    have hlenj := length_le_joinSep_enc (t :: ts2)
    have hlen : (t :: ts2).length ≤
        (joinSep [',', ' '] ((t :: ts2).map encStr) ++ ']' :: rest).length + 1 := by
      rw [List.length_append]
      simp only [List.length_cons] at hlenj ⊢
      omega
    simp only [skipWs_cons_of_not_ws '[' _ (by decide)]
    rw [htail, skipWs_cons_of_not_ws '"' _ (by decide), ← htail]
    have hred := parseElems_enc fuel (t :: ts2)
      ((joinSep [',', ' '] ((t :: ts2).map encStr) ++ ']' :: rest).length + 1)
      rest (by simp) hlen
    rw [htail] at hred ⊢
    simpa using hred

theorem jsonParse_dumps (ts : List String) :
    jsonParse (jsonDumpsList ts) = some (.jarr (ts.map JVal.jstr)) := by
  unfold jsonParse
  have hdata : (jsonDumpsList ts).data = dumpsStrListChars ts := rfl
  rw [hdata]
  have hfuel : (dumpsStrListChars ts).length + 2 =
      (dumpsStrListChars ts).length + 2 := rfl
  have h := parseVal_dumps (dumpsStrListChars ts).length ts []
  rw [List.append_nil] at h
  rw [h]
  simp [skipWs]

theorem pyStrip_dumps (ts : List String) :
    pyStrip (jsonDumpsList ts) = jsonDumpsList ts := by
  have hdata : (jsonDumpsList ts).data = dumpsStrListChars ts := rfl
  rw [String.ext_iff]
  show pyStripChars (jsonDumpsList ts).data = _
  rw [hdata]
  have h1 : (dumpsStrListChars ts).dropWhile pySpace = dumpsStrListChars ts := by
    simp [dumpsStrListChars, List.dropWhile_cons, pySpace]
  rw [pyStripChars_eq_rdrop, h1]
  have hshape : dumpsStrListChars ts =
      ('[' :: joinSep [',', ' '] (ts.map encStr)) ++ [']'] := rfl
  rw [hshape, List.rdropWhile_eq_self_iff]
  intro hl
  rw [List.getLast_append_of_ne_nil (by simp)]
  simp [pySpace]

theorem pyStr_jstr (s : String) : pyStr (.jstr s) = s := rfl

theorem parse_list_dumps (toks : List String)
    (htoks : ∀ t ∈ toks, pyStrip t = t ∧ t ≠ "") :
    parse_list (some (jsonDumpsList toks)) = some toks := by
  have hne : jsonDumpsList toks ≠ "" := by
    intro hcontra
    have hdd := congrArg String.data hcontra
    simp [jsonDumpsList, dumpsStrListChars] at hdd
  simp only [parse_list, pyStrip_dumps, if_neg hne, jsonParse_dumps]
  rw [List.filter_map]
  have hfil : (toks.filter
      ((fun it => decide (pyStrip (pyStr it) ≠ "")) ∘ JVal.jstr)) = toks := by
    apply List.filter_eq_self.mpr
    intro t ht
    have := htoks t ht
    simp [pyStr_jstr, this.1, this.2]
  rw [hfil, List.map_map]
  rw [show (pyStr ∘ JVal.jstr) = id from rfl, List.map_id]

/-- C7: a list-like field given as a pipe-delimited string normalizes
exactly as the JSON array literal of its trimmed non-empty tokens: for
every input whose stripped value is non-empty and fails JSON parsing,
_parse_list takes the pipe-splitting path and returns its tokens, and
_parse_list applied to json.dumps of those tokens returns the same list —
so both inputs produce the same stored canonical JSON-array text. -/
theorem c7_pipe_equals_json_array (s : String) (hne : pyStrip s ≠ "")
    (hfail : jsonParse (pyStrip s) = none) :
    parse_list (some s) =
      parse_list (some (jsonDumpsList (pipeTokens (pyStrip s)))) ∧
    parse_list (some s) = some (pipeTokens (pyStrip s)) := by
  have h1 := parse_list_pipe s hne hfail
  have h2 := parse_list_dumps (pipeTokens (pyStrip s))
    (fun t ht => mem_pipeTokens _ t ht)
  exact ⟨h1.trans h2.symm, h1⟩

theorem c7_pipe_equals_json_array_witness :
    pyStrip "Fire|Water" ≠ "" ∧
    jsonParse (pyStrip "Fire|Water") = none ∧
    (parse_list (some "Fire|Water") =
        parse_list (some (jsonDumpsList (pipeTokens (pyStrip "Fire|Water")))) ∧
     parse_list (some "Fire|Water") =
        some (pipeTokens (pyStrip "Fire|Water"))) ∧
    parse_list (some "Fire|Water") = parse_list (some "[\"Fire\",\"Water\"]") ∧
    parse_list (some "Fire|Water") = some ["Fire", "Water"] :=
  ⟨by decide, by rfl,
   c7_pipe_equals_json_array "Fire|Water" (by decide) (by rfl),
   by rfl, by rfl⟩

end Collector
